import Mathlib

/-!
# Verification of the acs_cli aggregation and formatting core

A shallow embedding, in Lean 4, of the record aggregation, pivoting,
merging, sorting and formatting layer of the acs_cli repository
(src/acs_cli). Python dictionaries are modelled as association lists,
Python numbers (floats and ints) as exact rationals and integers, and
fallible operations (sorting with a key function that can raise, measure
resolution that can raise ValueError) as Option / Except values.

Python specifics modelled explicitly:
- float(s) on the decimal strings that the upstream APIs produce is
  modelled by parseDecimal (optional sign, digits, optional fraction);
  exotic float syntax (ex('1e5'), 'inf', 'nan', surrounding whitespace)
  is outside the value space of this program and is not modelled.
- round(x, n) rounds half to even; str(float) prints the shortest exact
  decimal expansion with at least one fractional digit, which ratToStr
  reproduces for the terminating decimals this program manipulates.
- Truthiness: the empty string and the integer 0 are falsy.
-/

-- ── Characters and strings ───────────────────────────────────────────────────

def strLower (s : String) : String := ⟨s.data.map Char.toLower⟩

def strUpper (s : String) : String := ⟨s.data.map Char.toUpper⟩

/-- Python str.strip for ASCII whitespace. -/
def pyStrip (s : String) : String :=
  ⟨((s.data.dropWhile Char.isWhitespace).reverse.dropWhile Char.isWhitespace).reverse⟩

/-- Word characters for the regex word boundary in clean_county_name. -/
def isWordChar (c : Char) : Bool := c.isAlphanum || c = '_'

/-- Python str.title applied to a word: the first letter after a
non-alphabetic character is uppercased, other letters are lowercased. -/
def pyTitleGo : Bool → List Char → List Char
  | _, [] => []
  | prevAlpha, c :: rest =>
      (if c.isAlpha then (if prevAlpha then c.toLower else c.toUpper) else c) ::
        pyTitleGo c.isAlpha rest

def pyTitle (s : String) : String := ⟨pyTitleGo false s.data⟩

/-- needle is a prefix of hay, on character lists. -/
def startsWithL : List Char → List Char → Bool
  | [], _ => true
  | _ :: _, [] => false
  | n :: ns, h :: hs => n = h && startsWithL ns hs

/-- needle occurs as a contiguous substring of hay (Python `in`). -/
def containsSub : List Char → List Char → Bool
  | n, [] => startsWithL n []
  | n, h :: hs => startsWithL n (h :: hs) || containsSub n hs

/-- Python substring test on strings: `needle in hay`. -/
def strContains (hay needle : String) : Bool := containsSub needle.data hay.data

/-- Replace every occurrence of a nonempty needle (Python str.replace). -/
def replaceAllGo (needle repl : List Char) : Nat → List Char → List Char
  | 0, hay => hay
  | _ + 1, [] => []
  | fuel + 1, h :: hs =>
      if startsWithL needle (h :: hs) then
        repl ++ replaceAllGo needle repl fuel ((h :: hs).drop needle.length)
      else
        h :: replaceAllGo needle repl fuel hs

def replaceAll (s needle repl : String) : String :=
  ⟨replaceAllGo needle.data repl.data s.data.length s.data⟩

-- ── clean_county_name (src/acs_cli/__init__.py) ──────────────────────────────

/-- The regex substitution `\s+County$` → empty: if the name ends with
County preceded by at least one whitespace character, drop County and
the whole run of whitespace before it. -/
def stripCountySuffix (s : String) : String :=
  let rcs := s.data.reverse
  if startsWithL "ytnuoC".data rcs then
    let rest := rcs.drop 6
    if rest.headD 'x' |>.isWhitespace then
      ⟨(rest.dropWhile Char.isWhitespace).reverse⟩
    else s
  else s

/-- The regex substitution `\bSt\.\s+` → `Saint `: at a word boundary,
`St.` followed by whitespace becomes `Saint` and a single space. -/
def expandSaintGo : Bool → Nat → List Char → List Char
  | _, 0, cs => cs
  | _, _ + 1, [] => []
  | prevWord, fuel + 1, c :: rest =>
      if c = 'S' ∧ ¬prevWord then
        match rest with
        | 't' :: '.' :: r2 =>
            if r2.headD 'x' |>.isWhitespace then
              'S' :: 'a' :: 'i' :: 'n' :: 't' :: ' ' ::
                expandSaintGo false fuel (r2.dropWhile Char.isWhitespace)
            else c :: expandSaintGo (isWordChar c) fuel rest
        | _ => c :: expandSaintGo (isWordChar c) fuel rest
      else c :: expandSaintGo (isWordChar c) fuel rest

def expandSaint (s : String) : String :=
  ⟨expandSaintGo false s.data.length s.data⟩

/-- clean_county_name from acs_cli/__init__.py: drop a `, Michigan`
suffix anywhere, drop a trailing ` County`, and spell out `St.` as
`Saint`. -/
def cleanCountyName (name : String) : String :=
  expandSaint (stripCountySuffix (replaceAll name ", Michigan" ""))

-- ── Kernel-computable rational arithmetic ────────────────────────────────────
-- The Batteries field operations on ℚ are marked irreducible, so concrete
-- evaluations (witnesses, counterexamples) could not go through the kernel.
-- These mkRat-based versions reduce in the kernel and are proved equal to
-- the standard operations; the embedding below uses them, and the simp
-- bridges let proofs use the ordinary algebraic vocabulary.

def qOfInt (z : ℤ) : ℚ := mkRat z 1

def qPow10 (d : Nat) : ℚ := qOfInt (((10 : ℕ) ^ d : ℕ) : ℤ)

def qAdd (a b : ℚ) : ℚ := mkRat (a.num * b.den + b.num * a.den) (a.den * b.den)

def qSub (a b : ℚ) : ℚ := mkRat (a.num * b.den - b.num * a.den) (a.den * b.den)

def qMul (a b : ℚ) : ℚ := mkRat (a.num * b.num) (a.den * b.den)

def qDiv (a b : ℚ) : ℚ := Rat.divInt (a.num * b.den) ((a.den : ℤ) * b.num)

def qNeg (a : ℚ) : ℚ := mkRat (-a.num) a.den

def qAbs (a : ℚ) : ℚ := if a < 0 then qNeg a else a

def qMax (a b : ℚ) : ℚ := if a ≤ b then b else a

def qSum (l : List ℚ) : ℚ := l.foldl qAdd 0

@[simp] theorem qOfInt_eq (z : ℤ) : qOfInt z = (z : ℚ) := Rat.mkRat_one z

@[simp] theorem qPow10_eq (d : Nat) : qPow10 d = (10 : ℚ) ^ d := by
  rw [qPow10, qOfInt_eq]
  push_cast
  ring

@[simp] theorem qAdd_eq (a b : ℚ) : qAdd a b = a + b := (Rat.add_def' a b).symm

@[simp] theorem qSub_eq (a b : ℚ) : qSub a b = a - b := (Rat.sub_def' a b).symm

@[simp] theorem qMul_eq (a b : ℚ) : qMul a b = a * b := by
  rw [qMul, Rat.mul_def, Rat.normalize_eq_mkRat]

@[simp] theorem qNeg_eq (a : ℚ) : qNeg a = -a := by
  rw [qNeg, ← Rat.neg_num, ← Rat.neg_den a, Rat.mkRat_self]

@[simp] theorem qDiv_eq (a b : ℚ) : qDiv a b = a / b := by
  rcases eq_or_ne b 0 with rfl | hb
  · simp [qDiv]
  · have hbn : (b.num : ℚ) ≠ 0 := Int.cast_ne_zero.2 (Rat.num_ne_zero.2 hb)
    have had : ((a.den : ℚ)) ≠ 0 := Nat.cast_ne_zero.2 a.den_nz
    have hbd : ((b.den : ℚ)) ≠ 0 := Nat.cast_ne_zero.2 b.den_nz
    rw [qDiv, Rat.divInt_eq_div]
    push_cast
    rw [div_eq_div_iff (mul_ne_zero had hbn) hb]
    have h1 : (a.num : ℚ) = a * a.den := (div_eq_iff had).1 (Rat.num_div_den a)
    have h2 : (b.num : ℚ) = b * b.den := (div_eq_iff hbd).1 (Rat.num_div_den b)
    rw [h1, h2]
    ring

@[simp] theorem qAbs_eq (a : ℚ) : qAbs a = |a| := by
  rw [qAbs]
  split
  · rw [qNeg_eq, abs_of_neg (by assumption)]
  · rw [abs_of_nonneg (le_of_not_lt (by assumption))]

@[simp] theorem qMax_eq (a b : ℚ) : qMax a b = max a b := (max_def a b).symm

@[simp] theorem qSum_eq (l : List ℚ) : qSum l = l.sum := by
  have hf : qAdd = fun a b : ℚ => a + b := funext fun a => funext fun b => qAdd_eq a b
  rw [qSum, hf, ← List.sum_eq_foldl]

theorem ratFloor_eq (q : ℚ) : Rat.floor q = ⌊q⌋ := by
  rw [Rat.floor_def, Rat.floor_def']

-- ── Numeric parsing ──────────────────────────────────────────────────────────

def digitVal (c : Char) : Option Nat :=
  if '0' ≤ c ∧ c ≤ '9' then some (c.toNat - '0'.toNat) else none

def digitsToNat : List Char → Option Nat
  | [] => none
  | cs => cs.foldlM (fun acc c => (digitVal c).map (fun d => acc * 10 + d)) 0

/-- Python float(s) restricted to plain decimal literals: optional sign,
then digits with at most one decimal point and at least one digit. -/
def parseDecimal (s : String) : Option ℚ :=
  let cs := s.data
  let signed : Bool × List Char :=
    match cs with
    | '-' :: t => (true, t)
    | '+' :: t => (false, t)
    | _ => (false, cs)
  let body := signed.2
  let intPart := body.takeWhile (fun c => c ≠ '.')
  let rest := body.drop intPart.length
  let fracPart : Option (List Char) :=
    match rest with
    | [] => some []
    | '.' :: t => if t.all (fun c => (digitVal c).isSome) then some t else none
    | _ => none
  match fracPart with
  | none => none
  | some fp =>
      if intPart = [] ∧ fp = [] then none
      else if intPart.all (fun c => (digitVal c).isSome) then
        match digitsToNat (intPart ++ fp) with
        | none =>
            -- intPart and fp both empty is excluded above; digits exist
            none
        | some n =>
            let q : ℚ := qDiv (qOfInt n) (qPow10 fp.length)
            some (if signed.1 then qNeg q else q)
      else none

/-- Python int(s): optional sign then digits only. -/
def parseIntStr (s : String) : Option ℤ :=
  let cs := s.data
  let signed : Bool × List Char :=
    match cs with
    | '-' :: t => (true, t)
    | '+' :: t => (false, t)
    | _ => (false, cs)
  match digitsToNat signed.2 with
  | none => none
  | some n => some (if signed.1 then -(n : ℤ) else (n : ℤ))

-- ── Numeric rendering ────────────────────────────────────────────────────────

def digitChar (n : Nat) : Char := Char.ofNat ('0'.toNat + n % 10)

def natDigitsGo : Nat → Nat → List Char
  | 0, _ => []
  | fuel + 1, n => if n < 10 then [digitChar n] else natDigitsGo fuel (n / 10) ++ [digitChar (n % 10)]

def natToStr (n : Nat) : String := ⟨natDigitsGo (n + 1) n⟩

def intToStr (z : ℤ) : String :=
  if z < 0 then "-" ++ natToStr z.natAbs else natToStr z.natAbs

/-- Round a rational to the nearest integer, ties to even (Python round). -/
def roundHalfEvenInt (q : ℚ) : ℤ :=
  let n := Rat.floor q
  let r := qSub q (qOfInt n)
  if r < mkRat 1 2 then n
  else if mkRat 1 2 < r then n + 1
  else if n % 2 = 0 then n else n + 1

/-- Python round(q, d) on exact values. -/
def pyRound (q : ℚ) (d : Nat) : ℚ :=
  qDiv (qOfInt (roundHalfEvenInt (qMul q (qPow10 d)))) (qPow10 d)

/-- Fractional digits of 0 ≤ q < 1, most significant first, stopping at
zero; fuel bounds the expansion. -/
def fracDigitsGo : Nat → ℚ → List Char
  | 0, _ => []
  | fuel + 1, q =>
      if q = 0 then []
      else
        let d := Rat.floor (qMul q (qOfInt 10))
        digitChar d.toNat :: fracDigitsGo fuel (qSub (qMul q (qOfInt 10)) (qOfInt d))

/-- Python str on a float holding an exact terminating decimal: shortest
decimal expansion, with at least one fractional digit. -/
def ratToStr (q : ℚ) : String :=
  let sign := if q < 0 then "-" else ""
  let a := qAbs q
  let ip := (Rat.floor a).toNat
  let ds := fracDigitsGo 30 (qSub a (qOfInt (Rat.floor a)))
  sign ++ natToStr ip ++ "." ++ (if ds.isEmpty then "0" else ⟨ds⟩)

/-- Python format spec `.1f`: round half to even to one decimal place and
print exactly one fractional digit. The sign of an exactly-zero result is
printed positive (Python keeps the sign of the float; that corner never
arises for the values this program formats). -/
def ratToStrFixed1 (q : ℚ) : String :=
  let r := pyRound q 1
  let sign := if r < 0 then "-" else ""
  let m := (qMul (qAbs r) (qOfInt 10)).num.toNat
  sign ++ natToStr (m / 10) ++ "." ++ natToStr (m % 10)

example : parseDecimal "12.3" = some (mkRat 123 10) := by decide
example : parseDecimal "abc" = none := by decide
example : parseDecimal "" = none := by decide
example : parseDecimal "-666666666" = some (mkRat (-666666666) 1) := by decide
example : ratToStr (mkRat 123 1000) = "0.123" := by decide
example : ratToStr (mkRat 20 1) = "20.0" := by decide
example : ratToStr (mkRat 7 2) = "3.5" := by decide
example : pyRound (qDiv (mkRat 123 10) (mkRat 100 1)) 4 = mkRat 123 1000 := by decide
example : cleanCountyName "St. Clair County, Michigan" = "Saint Clair" := by decide
example : cleanCountyName "Washtenaw County" = "Washtenaw" := by decide
example : pyTitle "WAYNE" = "Wayne" := by decide
example : strContains "Acute Care Hospitals" "Acute Care" = true := by decide

-- ── Python dictionaries as association lists ─────────────────────────────────
-- A Python dict with string keys is modelled as an association list in
-- insertion order. Keys are unique in every dict the program builds; the
-- operations below preserve that invariant (dset replaces in place or
-- appends at the end, exactly like item assignment on a dict).

abbrev Dict := List (String × String)

/-- Lookup in an association list with values of any type (first match). -/
def lookupA {β : Type} (m : List (String × β)) (k : String) : Option β :=
  (m.find? (fun e => e.1 = k)).map (fun e => e.2)

/-- Replace the value at an existing key, keeping its position. -/
def replaceA {β : Type} (m : List (String × β)) (k : String) (b : β) :
    List (String × β) :=
  m.map (fun e => if e.1 = k then (k, b) else e)

def keysA {β : Type} (m : List (String × β)) : List String := m.map Prod.fst

/-- Python d.get(k): none when absent. -/
def dget (d : Dict) (k : String) : Option String := lookupA d k

/-- Python d.get(k, default). -/
def dgetD (d : Dict) (k default : String) : String := (dget d k).getD default

/-- Python d[k] = v. -/
def dset (d : Dict) (k v : String) : Dict :=
  if (lookupA d k).isSome then replaceA d k v else d ++ [(k, v)]

/-- Python d.update(e): fold item assignment over the items of e. -/
def dupdate (d e : Dict) : Dict := e.foldl (fun acc kv => dset acc kv.1 kv.2) d

-- ── Generic group-by fold ────────────────────────────────────────────────────
-- All four by-key folds in the repository (hospital aggregation, HPSA
-- aggregation, the PLACES pivot, and the multi-batch ACS merge) have the
-- shape: compute a key for the record; skip the record if the key does not
-- resolve; update the existing accumulator for that key, or append a fresh
-- accumulator for a new key at the end (dict insertion order).

def groupStep {ρ β : Type} (keyOf : ρ → Option String) (fresh : String → ρ → β)
    (upd : β → ρ → β) (m : List (String × β)) (r : ρ) : List (String × β) :=
  match keyOf r with
  | none => m
  | some k =>
      match lookupA m k with
      | some acc => replaceA m k (upd acc r)
      | none => m ++ [(k, fresh k r)]

def groupFold {ρ β : Type} (keyOf : ρ → Option String) (fresh : String → ρ → β)
    (upd : β → ρ → β) (m : List (String × β)) (recs : List ρ) : List (String × β) :=
  recs.foldl (groupStep keyOf fresh upd) m


-- Association-list lemmas.

theorem lookupA_nil {β : Type} (c : String) : lookupA ([] : List (String × β)) c = none := rfl

theorem lookupA_cons {β : Type} (k' : String) (v : β) (t : List (String × β))
    (c : String) :
    lookupA ((k', v) :: t) c = if k' = c then some v else lookupA t c := by
  by_cases h : k' = c
  · rw [lookupA, List.find?_cons_of_pos _ (by simp [h]), if_pos h]
    rfl
  · rw [lookupA, List.find?_cons_of_neg _ (by simp [h]), if_neg h]
    rfl

theorem replaceA_cons {β : Type} (k' : String) (v : β) (t : List (String × β))
    (k : String) (b : β) :
    replaceA ((k', v) :: t) k b =
      (if k' = k then (k, b) else (k', v)) :: replaceA t k b := rfl

theorem lookupA_replaceA {β : Type} (m : List (String × β)) (k : String) (b : β)
    (c : String) :
    lookupA (replaceA m k b) c =
      if c = k then (lookupA m k).map (fun _ => b) else lookupA m c := by
  induction m with
  | nil =>
      by_cases hck : c = k <;> simp [replaceA, lookupA_nil, hck]
  | cons e t ih =>
      obtain ⟨k', v⟩ := e
      rw [replaceA_cons]
      by_cases hk'k : k' = k
      · by_cases hck : c = k
        · simp [lookupA_cons, hk'k, hck]
        · have hkc : ¬k = c := fun h => hck h.symm
          simp [lookupA_cons, hk'k, hck, hkc, ih]
      · by_cases hk'c : k' = c
        · have hck : ¬c = k := fun h => hk'k (hk'c.trans h)
          simp [lookupA_cons, hk'k, hk'c, hck]
        · by_cases hck : c = k
          · subst hck
            simp [lookupA_cons, hk'k, hk'c, ih]
          · simp [lookupA_cons, hk'k, hk'c, hck, ih]

theorem lookupA_append_single {β : Type} (m : List (String × β)) (k : String)
    (b : β) (c : String) :
    lookupA (m ++ [(k, b)]) c =
      (lookupA m c).orElse (fun _ => if k = c then some b else none) := by
  induction m with
  | nil => rw [List.nil_append, lookupA_cons, lookupA_nil]; rfl
  | cons e t ih =>
      obtain ⟨k', v⟩ := e
      rw [List.cons_append, lookupA_cons, lookupA_cons]
      by_cases hk'c : k' = c
      · rw [if_pos hk'c, if_pos hk'c]
        rfl
      · rw [if_neg hk'c, if_neg hk'c, ih]

theorem keysA_nil {β : Type} : keysA ([] : List (String × β)) = [] := rfl

theorem keysA_cons {β : Type} (e : String × β) (t : List (String × β)) :
    keysA (e :: t) = e.1 :: keysA t := rfl

theorem keysA_replaceA {β : Type} (m : List (String × β)) (k : String) (b : β) :
    keysA (replaceA m k b) = keysA m := by
  induction m with
  | nil => rfl
  | cons e t ih =>
      obtain ⟨k', v⟩ := e
      rw [replaceA_cons, keysA_cons, keysA_cons, ih]
      by_cases hk'k : k' = k
      · rw [if_pos hk'k, hk'k]
      · rw [if_neg hk'k]

theorem keysA_append_single {β : Type} (m : List (String × β)) (k : String) (b : β) :
    keysA (m ++ [(k, b)]) = keysA m ++ [k] := by
  rw [keysA, List.map_append]
  rfl

theorem lookupA_isSome_iff {β : Type} (m : List (String × β)) (c : String) :
    (lookupA m c).isSome = true ↔ c ∈ keysA m := by
  induction m with
  | nil => simp [lookupA_nil, keysA_nil]
  | cons e t ih =>
      obtain ⟨k', v⟩ := e
      rw [lookupA_cons, keysA_cons, List.mem_cons]
      by_cases hk'c : k' = c
      · simp [hk'c]
      · rw [if_neg hk'c, ih]
        simp only [List.mem_cons]
        constructor
        · exact Or.inr
        · rintro (h | h)
          · exact absurd h.symm hk'c
          · exact h

theorem lookupA_eq_none_iff {β : Type} (m : List (String × β)) (c : String) :
    lookupA m c = none ↔ c ∉ keysA m := by
  rw [← lookupA_isSome_iff]
  cases lookupA m c <;> simp

theorem mem_iff_lookupA {β : Type} (m : List (String × β)) (k : String) (b : β)
    (nd : (keysA m).Nodup) : (k, b) ∈ m ↔ lookupA m k = some b := by
  induction m with
  | nil => simp [lookupA_nil]
  | cons e t ih =>
      obtain ⟨k', v⟩ := e
      rw [keysA_cons, List.nodup_cons] at nd
      rw [List.mem_cons, lookupA_cons]
      by_cases hk'k : k' = k
      · subst hk'k
        rw [if_pos rfl]
        constructor
        · rintro (h | h)
          · injection h with h1 h2
            rw [h2]
          · exact absurd (List.mem_map.2 ⟨(k', b), h, rfl⟩) nd.1
        · intro h
          injection h with h2
          exact Or.inl (by rw [h2])
      · rw [if_neg hk'k, ih nd.2]
        constructor
        · rintro (h | h)
          · injection h with h1 h2
            exact absurd h1.symm hk'k
          · exact h
        · exact Or.inr

theorem lookupA_mapVal {β γ : Type} (m : List (String × β)) (g : String → β → γ)
    (k : String) :
    lookupA (m.map (fun e => (e.1, g e.1 e.2))) k = (lookupA m k).map (g k) := by
  induction m with
  | nil => rfl
  | cons e t ih =>
      obtain ⟨k', v⟩ := e
      rw [List.map_cons]
      rw [lookupA_cons, lookupA_cons]
      by_cases hk'k : k' = k
      · subst hk'k
        rw [if_pos rfl, if_pos rfl, Option.map_some']
      · rw [if_neg hk'k, if_neg hk'k, ih]

theorem keysA_mapVal {β γ : Type} (m : List (String × β)) (g : String → β → γ) :
    keysA (m.map (fun e => (e.1, g e.1 e.2))) = keysA m := by
  induction m with
  | nil => rfl
  | cons e t ih => rw [List.map_cons, keysA_cons, keysA_cons, ih]

/-- Two association lists with duplicate-free keys and the same lookup
function are permutations of each other. -/
theorem perm_of_lookupA_eq {β : Type} (m₁ m₂ : List (String × β))
    (nd₁ : (keysA m₁).Nodup) (nd₂ : (keysA m₂).Nodup)
    (h : ∀ k, lookupA m₁ k = lookupA m₂ k) : m₁.Perm m₂ := by
  have hm₁ : m₁.Nodup := List.Nodup.of_map Prod.fst nd₁
  have hm₂ : m₂.Nodup := List.Nodup.of_map Prod.fst nd₂
  rw [List.perm_ext_iff_of_nodup hm₁ hm₂]
  rintro ⟨k, b⟩
  rw [mem_iff_lookupA m₁ k b nd₁, mem_iff_lookupA m₂ k b nd₂, h k]

-- groupFold characterization.

/-- The per-key accumulation step, on an optional accumulator. -/
def accStep {ρ β : Type} (fresh : String → ρ → β) (upd : β → ρ → β) (c : String)
    (acc : Option β) (r : ρ) : Option β :=
  some (match acc with
    | some a => upd a r
    | none => fresh c r)

theorem lookupA_groupStep {ρ β : Type} (keyOf : ρ → Option String)
    (fresh : String → ρ → β) (upd : β → ρ → β) (m : List (String × β)) (r : ρ)
    (c : String) :
    lookupA (groupStep keyOf fresh upd m r) c =
      if keyOf r = some c then accStep fresh upd c (lookupA m c) r
      else lookupA m c := by
  cases hk : keyOf r with
  | none =>
      simp only [groupStep, hk]
      rw [if_neg (by simp)]
  | some k =>
      by_cases hkc : k = c
      · subst hkc
        cases hl : lookupA m k with
        | some acc =>
            simp only [groupStep, hk, hl]
            rw [if_pos trivial, lookupA_replaceA, if_pos rfl, hl, accStep]
            rfl
        | none =>
            simp only [groupStep, hk, hl]
            rw [if_pos trivial, lookupA_append_single, hl, accStep]
            simp
      · cases hl : lookupA m k with
        | some acc =>
            simp only [groupStep, hk, hl]
            rw [if_neg (by simp [hkc]), lookupA_replaceA, if_neg (fun h => hkc h.symm)]
        | none =>
            simp only [groupStep, hk, hl]
            rw [if_neg (by simp [hkc]), lookupA_append_single, if_neg hkc]
            cases lookupA m c <;> rfl

theorem lookupA_groupFold {ρ β : Type} (keyOf : ρ → Option String)
    (fresh : String → ρ → β) (upd : β → ρ → β) (m : List (String × β))
    (recs : List ρ) (c : String) :
    lookupA (groupFold keyOf fresh upd m recs) c =
      (recs.filter (fun r => keyOf r = some c)).foldl
        (accStep fresh upd c) (lookupA m c) := by
  induction recs generalizing m with
  | nil => rfl
  | cons r t ih =>
      rw [groupFold, List.foldl_cons, ← groupFold, ih]
      by_cases hr : keyOf r = some c
      · rw [List.filter_cons_of_pos (by simp [hr]), List.foldl_cons,
          lookupA_groupStep, if_pos hr]
      · rw [List.filter_cons_of_neg (by simp [hr]), lookupA_groupStep, if_neg hr]

theorem keysA_groupStep_nodup {ρ β : Type} (keyOf : ρ → Option String)
    (fresh : String → ρ → β) (upd : β → ρ → β) (m : List (String × β)) (r : ρ)
    (nd : (keysA m).Nodup) : (keysA (groupStep keyOf fresh upd m r)).Nodup := by
  cases hk : keyOf r with
  | none =>
      simp only [groupStep, hk]
      exact nd
  | some k =>
      cases hl : lookupA m k with
      | some acc =>
          simp only [groupStep, hk, hl]
          rw [keysA_replaceA]
          exact nd
      | none =>
          simp only [groupStep, hk, hl]
          rw [keysA_append_single]
          have hkm : k ∉ keysA m := (lookupA_eq_none_iff m k).1 hl
          simp [List.nodup_append, nd, hkm]

theorem keysA_groupFold_nodup {ρ β : Type} (keyOf : ρ → Option String)
    (fresh : String → ρ → β) (upd : β → ρ → β) (m : List (String × β))
    (recs : List ρ) (nd : (keysA m).Nodup) :
    (keysA (groupFold keyOf fresh upd m recs)).Nodup := by
  induction recs generalizing m with
  | nil => exact nd
  | cons r t ih =>
      rw [groupFold, List.foldl_cons, ← groupFold]
      exact ih _ (keysA_groupStep_nodup keyOf fresh upd m r nd)

theorem mem_keysA_groupStep {ρ β : Type} (keyOf : ρ → Option String)
    (fresh : String → ρ → β) (upd : β → ρ → β) (m : List (String × β)) (r : ρ)
    (c : String) :
    c ∈ keysA (groupStep keyOf fresh upd m r) ↔ c ∈ keysA m ∨ keyOf r = some c := by
  cases hk : keyOf r with
  | none =>
      simp only [groupStep, hk]
      simp [hk]
  | some k =>
      cases hl : lookupA m k with
      | some acc =>
          simp only [groupStep, hk, hl]
          rw [keysA_replaceA]
          constructor
          · exact Or.inl
          · rintro (h | h)
            · exact h
            · injection h with h1
              rw [← h1]
              exact (lookupA_isSome_iff m k).1 (by rw [hl]; rfl)
      | none =>
          simp only [groupStep, hk, hl]
          rw [keysA_append_single]
          simp [List.mem_append, eq_comm]

theorem mem_keysA_groupFold {ρ β : Type} (keyOf : ρ → Option String)
    (fresh : String → ρ → β) (upd : β → ρ → β) (m : List (String × β))
    (recs : List ρ) (c : String) :
    c ∈ keysA (groupFold keyOf fresh upd m recs) ↔
      c ∈ keysA m ∨ ∃ r ∈ recs, keyOf r = some c := by
  induction recs generalizing m with
  | nil => simp [groupFold]
  | cons r t ih =>
      rw [groupFold, List.foldl_cons, ← groupFold, ih, mem_keysA_groupStep]
      constructor
      · rintro ((h | h) | ⟨r', hr', h⟩)
        · exact Or.inl h
        · exact Or.inr ⟨r, List.mem_cons_self r t, h⟩
        · exact Or.inr ⟨r', List.mem_cons_of_mem r hr', h⟩
      · rintro (h | ⟨r', hr', h⟩)
        · exact Or.inl (Or.inl h)
        · rcases List.mem_cons.1 hr' with rfl | hr'
          · exact Or.inl (Or.inr h)
          · exact Or.inr ⟨r', hr', h⟩

-- Normal forms for the optional-accumulator fold.

theorem foldl_accStep_some {ρ β : Type} (fresh : String → ρ → β) (upd : β → ρ → β)
    (c : String) (l : List ρ) (a : β) :
    l.foldl (accStep fresh upd c) (some a) = some (l.foldl upd a) := by
  induction l generalizing a with
  | nil => rfl
  | cons r t ih => rw [List.foldl_cons, List.foldl_cons, accStep, ih]

theorem foldl_accStep_cons_none {ρ β : Type} (fresh : String → ρ → β)
    (upd : β → ρ → β) (c : String) (r : ρ) (l : List ρ) :
    (r :: l).foldl (accStep fresh upd c) none = some (l.foldl upd (fresh c r)) := by
  rw [List.foldl_cons, accStep, foldl_accStep_some]

-- ── CMS hospital aggregation (src/acs_cli/cms_api/client.py) ─────────────────
-- _aggregate_hospitals_by_county groups hospital records by the title-cased
-- countyparish field and computes the access metrics. The per-county dict
-- of the Python code is a typed accumulator here: its _ratings scratch list
-- becomes the ratings field, dropped by finalization exactly as the code
-- pops it.

structure HospAcc where
  county : String
  hospital_count : Nat
  acute_care_hospitals : Nat
  critical_access_hospitals : Nat
  emergency_services : Nat
  birthing_friendly : Nat
  ratings : List ℚ
deriving DecidableEq

structure HospRow where
  county : String
  hospital_count : Nat
  acute_care_hospitals : Nat
  critical_access_hospitals : Nat
  emergency_services : Nat
  birthing_friendly : Nat
  avg_hospital_rating : String
deriving DecidableEq

/-- Record classification: `"Acute Care" in hospital_type`. -/
def hospIsAcute (rec : Dict) : Bool :=
  strContains (dgetD rec "hospital_type" "") "Acute Care"

/-- The elif branch: counted only when the acute-care test failed. -/
def hospIsCritical (rec : Dict) : Bool :=
  !hospIsAcute rec && strContains (dgetD rec "hospital_type" "") "Critical Access"

def hospHasEmergency (rec : Dict) : Bool :=
  (["yes", "y", "true"] : List String).contains (strLower (dgetD rec "emergency_services" ""))

def hospIsBirthing (rec : Dict) : Bool :=
  strUpper (dgetD rec "meets_criteria_for_birthing_friendly_designation" "") = "Y"

/-- float(hospital_overall_rating), skipped on ValueError. -/
def hospRating (rec : Dict) : Option ℚ :=
  parseDecimal (dgetD rec "hospital_overall_rating" "")

/-- Key resolution: skip records with a blank (stripped) countyparish,
title-case the rest. -/
def hospKeyOf (rec : Dict) : Option String :=
  let county := pyStrip (dgetD rec "countyparish" "")
  if county = "" then none else some (pyTitle county)

def hospInit (county : String) : HospAcc := ⟨county, 0, 0, 0, 0, 0, []⟩

def hospUpd (a : HospAcc) (rec : Dict) : HospAcc :=
  ⟨a.county,
   a.hospital_count + 1,
   a.acute_care_hospitals + (if hospIsAcute rec then 1 else 0),
   a.critical_access_hospitals + (if hospIsCritical rec then 1 else 0),
   a.emergency_services + (if hospHasEmergency rec then 1 else 0),
   a.birthing_friendly + (if hospIsBirthing rec then 1 else 0),
   a.ratings ++ (hospRating rec).toList⟩

def hospFresh (county : String) (rec : Dict) : HospAcc := hospUpd (hospInit county) rec

/-- avg_hospital_rating = str(round(sum(ratings)/len(ratings), 1)) when
ratings were collected, else the empty string; the _ratings list is
dropped. -/
def hospFinalize (a : HospAcc) : HospRow :=
  ⟨a.county, a.hospital_count, a.acute_care_hospitals, a.critical_access_hospitals,
   a.emergency_services, a.birthing_friendly,
   if a.ratings.isEmpty then ""
   else ratToStr (pyRound (qDiv (qSum a.ratings) (qOfInt a.ratings.length)) 1)⟩

def hospRowLE (r₁ r₂ : HospRow) : Prop := r₁.county ≤ r₂.county

instance : DecidableRel hospRowLE :=
  fun a b => inferInstanceAs (Decidable (a.county ≤ b.county))

instance : IsTotal HospRow hospRowLE := ⟨fun a b => le_total a.county b.county⟩

instance : IsTrans HospRow hospRowLE := ⟨fun _ _ _ h₁ h₂ => le_trans h₁ h₂⟩

def aggregate_hospitals_by_county (records : List Dict) : List HospRow :=
  List.insertionSort hospRowLE
    ((groupFold hospKeyOf hospFresh hospUpd [] records).map (fun e => hospFinalize e.2))

theorem hospUpd_foldl (l : List Dict) (a : HospAcc) :
    l.foldl hospUpd a = ⟨a.county,
      a.hospital_count + l.length,
      a.acute_care_hospitals + l.countP hospIsAcute,
      a.critical_access_hospitals + l.countP hospIsCritical,
      a.emergency_services + l.countP hospHasEmergency,
      a.birthing_friendly + l.countP hospIsBirthing,
      a.ratings ++ l.filterMap hospRating⟩ := by
  induction l generalizing a with
  | nil =>
      cases a
      simp
  | cons r t ih =>
      rw [List.foldl_cons, ih]
      simp only [hospUpd, List.length_cons, List.countP_cons, List.filterMap_cons,
        HospAcc.mk.injEq]
      refine ⟨trivial, by omega, by omega, by omega, by omega, by omega, ?_⟩
      cases hospRating r <;> simp

-- ── HRSA HPSA aggregation (src/acs_cli/hrsa_api/client.py) ───────────────────
-- _aggregate_hpsa_by_county groups features by the county resolved from the
-- CMN_STATE_COUNTY_FIPS_CD attribute through MI_FIPS_TO_COUNTY. A feature
-- is modelled by its attributes dict; attribute values are optional strings
-- (none models both an absent key and a JSON null, which attrs.get
-- collapses to None). The measure prefix (pc / mh) of the Python code only
-- prefixes the output field names, so the typed row drops it.

abbrev AttrDict := List (String × Option String)

def MI_FIPS_TO_COUNTY : List (String × String) := [
  ("26001", "Alcona"), ("26003", "Alger"), ("26005", "Allegan"),
  ("26007", "Alpena"), ("26009", "Antrim"), ("26011", "Arenac"),
  ("26013", "Baraga"), ("26015", "Barry"), ("26017", "Bay"),
  ("26019", "Benzie"), ("26021", "Berrien"), ("26023", "Branch"),
  ("26025", "Calhoun"), ("26027", "Cass"), ("26029", "Charlevoix"),
  ("26031", "Cheboygan"), ("26033", "Chippewa"), ("26035", "Clare"),
  ("26037", "Clinton"), ("26039", "Crawford"), ("26041", "Delta"),
  ("26043", "Dickinson"), ("26045", "Eaton"), ("26047", "Emmet"),
  ("26049", "Genesee"), ("26051", "Gladwin"), ("26053", "Gogebic"),
  ("26055", "Grand Traverse"), ("26057", "Gratiot"), ("26059", "Hillsdale"),
  ("26061", "Houghton"), ("26063", "Huron"), ("26065", "Ingham"),
  ("26067", "Ionia"), ("26069", "Iosco"), ("26071", "Iron"),
  ("26073", "Isabella"), ("26075", "Jackson"), ("26077", "Kalamazoo"),
  ("26079", "Kalkaska"), ("26081", "Kent"), ("26083", "Keweenaw"),
  ("26085", "Lake"), ("26087", "Lapeer"), ("26089", "Leelanau"),
  ("26091", "Lenawee"), ("26093", "Livingston"), ("26095", "Luce"),
  ("26097", "Mackinac"), ("26099", "Macomb"), ("26101", "Manistee"),
  ("26103", "Marquette"), ("26105", "Mason"), ("26107", "Mecosta"),
  ("26109", "Menominee"), ("26111", "Midland"), ("26113", "Missaukee"),
  ("26115", "Monroe"), ("26117", "Montcalm"), ("26119", "Montmorency"),
  ("26121", "Muskegon"), ("26123", "Newaygo"), ("26125", "Oakland"),
  ("26127", "Oceana"), ("26129", "Ogemaw"), ("26131", "Ontonagon"),
  ("26133", "Osceola"), ("26135", "Oscoda"), ("26137", "Otsego"),
  ("26139", "Ottawa"), ("26141", "Presque Isle"), ("26143", "Roscommon"),
  ("26145", "Saginaw"), ("26147", "Saint Clair"), ("26149", "Saint Joseph"),
  ("26151", "Sanilac"), ("26153", "Schoolcraft"), ("26155", "Shiawassee"),
  ("26157", "Tuscola"), ("26159", "Van Buren"), ("26161", "Washtenaw"),
  ("26163", "Wayne"), ("26165", "Wexford")]

/-- Python attrs.get(k): none for an absent key and for a null value. -/
def aget (attrs : AttrDict) (k : String) : Option String :=
  match lookupA attrs k with
  | none => none
  | some v => v

structure HpsaAcc where
  county : String
  hpsa_count : Nat
  scores : List ℚ
  pop : ℤ
deriving DecidableEq

structure HpsaRow where
  county : String
  hpsa_count : Nat
  hpsa_max_score : String
  hpsa_avg_score : String
  underserved_pop : String
deriving DecidableEq

/-- Key resolution: str(attrs.get(fips, "")) looked up in the FIPS table;
unresolved counties are skipped. -/
def hpsaKeyOf (attrs : AttrDict) : Option String :=
  lookupA MI_FIPS_TO_COUNTY ((aget attrs "CMN_STATE_COUNTY_FIPS_CD").getD "")

/-- float(HPSA_SCORE) when the attribute is not None, skipped on
ValueError. -/
def hpsaScoreOf (attrs : AttrDict) : Option ℚ :=
  match aget attrs "HPSA_SCORE" with
  | none => none
  | some s => parseDecimal s

/-- int(HPSA_ESTIMATED_UNDERSERVED_POP) when not None, skipped on
ValueError. -/
def hpsaPopOf (attrs : AttrDict) : Option ℤ :=
  match aget attrs "HPSA_ESTIMATED_UNDERSERVED_POP" with
  | none => none
  | some s => parseIntStr s

def hpsaInit (county : String) : HpsaAcc := ⟨county, 0, [], 0⟩

def hpsaUpd (a : HpsaAcc) (attrs : AttrDict) : HpsaAcc :=
  ⟨a.county, a.hpsa_count + 1,
   a.scores ++ (hpsaScoreOf attrs).toList,
   a.pop + (hpsaPopOf attrs).getD 0⟩

def hpsaFresh (county : String) (attrs : AttrDict) : HpsaAcc :=
  hpsaUpd (hpsaInit county) attrs

/-- Python max over a nonempty list (the empty case is never rendered). -/
def qListMax : List ℚ → ℚ
  | [] => 0
  | a :: t => t.foldl qMax a

/-- max and avg scores render as str(float); the underserved population
renders as str(pop) if pop else the empty string. -/
def hpsaFinalize (a : HpsaAcc) : HpsaRow :=
  ⟨a.county, a.hpsa_count,
   if a.scores.isEmpty then "" else ratToStr (qListMax a.scores),
   if a.scores.isEmpty then ""
   else ratToStr (pyRound (qDiv (qSum a.scores) (qOfInt a.scores.length)) 1),
   if a.pop = 0 then "" else intToStr a.pop⟩

def hpsaRowLE (r₁ r₂ : HpsaRow) : Prop := r₁.county ≤ r₂.county

instance : DecidableRel hpsaRowLE :=
  fun a b => inferInstanceAs (Decidable (a.county ≤ b.county))

instance : IsTotal HpsaRow hpsaRowLE := ⟨fun a b => le_total a.county b.county⟩

instance : IsTrans HpsaRow hpsaRowLE := ⟨fun _ _ _ h₁ h₂ => le_trans h₁ h₂⟩

def aggregate_hpsa_by_county (features : List AttrDict) : List HpsaRow :=
  List.insertionSort hpsaRowLE
    ((groupFold hpsaKeyOf hpsaFresh hpsaUpd [] features).map (fun e => hpsaFinalize e.2))

theorem hpsaUpd_foldl (l : List AttrDict) (a : HpsaAcc) :
    l.foldl hpsaUpd a = ⟨a.county, a.hpsa_count + l.length,
      a.scores ++ l.filterMap hpsaScoreOf,
      a.pop + (l.filterMap hpsaPopOf).sum⟩ := by
  induction l generalizing a with
  | nil =>
      cases a
      simp
  | cons r t ih =>
      rw [List.foldl_cons, ih]
      simp only [hpsaUpd, List.length_cons, List.filterMap_cons, HpsaAcc.mk.injEq]
      refine ⟨trivial, by omega, ?_, ?_⟩
      · cases hpsaScoreOf r <;> simp
      · cases hp : hpsaPopOf r
        all_goals simp [hp]
        all_goals omega

-- ── PLACES pivot (src/acs_cli/places_api/client.py) ──────────────────────────
-- _pivot_rows turns long records into one dict per cleaned county name,
-- one key per measureid. Note that a later record with the same county
-- and measureid overwrites the earlier stored value (dict assignment).

/-- The stored cell: str(round(float(raw) / 100, 4)), falling back to the
raw string when float() raises. -/
def convertValue (raw : String) : String :=
  match parseDecimal raw with
  | some q => ratToStr (pyRound (qDiv q (qOfInt 100)) 4)
  | none => raw

def pivotKeyOf (rec : Dict) : Option String :=
  some (cleanCountyName (dgetD rec "locationname" ""))

def pivotUpd (value_col : String) (row : Dict) (rec : Dict) : Dict :=
  dset row (dgetD rec "measureid" "") (convertValue (dgetD rec value_col ""))

def pivotInit (county : String) : Dict := [("locationname", county)]

def pivotFresh (value_col : String) (county : String) (rec : Dict) : Dict :=
  pivotUpd value_col (pivotInit county) rec

def pivotRowLE (r₁ r₂ : Dict) : Prop :=
  dgetD r₁ "locationname" "" ≤ dgetD r₂ "locationname" ""

instance : DecidableRel pivotRowLE :=
  fun a b => inferInstanceAs (Decidable (dgetD a "locationname" "" ≤ dgetD b "locationname" ""))

instance : IsTotal Dict pivotRowLE :=
  ⟨fun a b => le_total (dgetD a "locationname" "") (dgetD b "locationname" "")⟩

instance : IsTrans Dict pivotRowLE := ⟨fun _ _ _ h₁ h₂ => le_trans h₁ h₂⟩

def pivot_rows (records : List Dict) (value_col : String) : List Dict :=
  List.insertionSort pivotRowLE
    ((groupFold pivotKeyOf (pivotFresh value_col) (pivotUpd value_col) [] records).map
      Prod.snd)

-- ── Census formatting, filtering and sorting (census_api/client.py) ──────────
-- The Variable dataclass lives in acs_cli/topics.py, which is not part of
-- the provided sources; its shape (code, label, format kind) is used by
-- every call site in census_api/client.py and is modelled from the spec:
-- a Measure/Variable is an immutable triple of code, display label and
-- format kind.

structure Variable where
  code : String
  label : String
  format : String
deriving DecidableEq

/-- SUPPRESSED from census_api/client.py; the Python set also holds the
value None, modelled as the none option. -/
def SUPPRESSED : List (Option String) :=
  [some "-666666666", some "-666666666.0", some "null", some "-", some "None", none]

def MAX_VARS_PER_CALL : Nat := 49

/-- format_value: suppressed sentinels and None blank out; unparseable
strings pass through; decimal renders with one fixed decimal; other kinds
render as int when the value is integral, else as the plain float. -/
def format_value (value : Option String) (fmt : String) : String :=
  if value ∈ SUPPRESSED ∨ value = none then ""
  else
    let s := value.getD ""
    match parseDecimal s with
    | none => s
    | some num =>
        if fmt = "decimal" then ratToStrFixed1 num
        else if num.den = 1 then intToStr num.num
        else ratToStr num

/-- Label resolution for --sort: first case-insensitive label match wins,
otherwise the given string is used as a field id. -/
def resolveSortCol (vars : List Variable) (sort_col : String) : String :=
  match vars.find? (fun v => strLower v.label = strLower sort_col) with
  | some v => v.code
  | none => sort_col

/-- The sort key float(r.get(code, 0) or 0): a missing field and a falsy
(empty) value sort as 0; any other value must parse as a number or the
key function raises (none). -/
def sortKeyQ (r : Dict) (code : String) : Option ℚ :=
  match dget r code with
  | none => some 0
  | some s => if s = "" then some 0 else parseDecimal s

def sortKeyD (r : Dict) (code : String) : ℚ := (sortKeyQ r code).getD 0

def sortGE (code : String) (r₁ r₂ : Dict) : Prop := sortKeyD r₂ code ≤ sortKeyD r₁ code

instance (code : String) : DecidableRel (sortGE code) :=
  fun a b => inferInstanceAs (Decidable (sortKeyD b code ≤ sortKeyD a code))

instance (code : String) : IsTotal Dict (sortGE code) :=
  ⟨fun a b => le_total (sortKeyD b code) (sortKeyD a code)⟩

instance (code : String) : IsTrans Dict (sortGE code) :=
  ⟨fun _ _ _ h₁ h₂ => le_trans h₂ h₁⟩

/-- rows.sort(key=..., reverse=True): evaluates the key on every row and
raises (none) if any key raises; otherwise sorts descending (stable). -/
def trySortDesc (rows : List Dict) (code : String) : Option (List Dict) :=
  if rows.all (fun r => (sortKeyQ r code).isSome) then
    some (List.insertionSort (sortGE code) rows)
  else none

/-- Default ordering: ascending by (NAME, year), lexicographically. -/
def defaultLE (r₁ r₂ : Dict) : Prop :=
  dgetD r₁ "NAME" "" < dgetD r₂ "NAME" "" ∨
    (dgetD r₁ "NAME" "" = dgetD r₂ "NAME" "" ∧ dgetD r₁ "year" "" ≤ dgetD r₂ "year" "")

instance : DecidableRel defaultLE :=
  fun _ _ => inferInstanceAs (Decidable (_ ∨ _))

instance : IsTotal Dict defaultLE := by
  constructor
  intro a b
  rcases lt_trichotomy (dgetD a "NAME" "") (dgetD b "NAME" "") with h | h | h
  · exact Or.inl (Or.inl h)
  · rcases le_total (dgetD a "year" "") (dgetD b "year" "") with hy | hy
    · exact Or.inl (Or.inr ⟨h, hy⟩)
    · exact Or.inr (Or.inr ⟨h.symm, hy⟩)
  · exact Or.inr (Or.inl h)

instance : IsTrans Dict defaultLE := by
  constructor
  rintro a b c (h₁ | ⟨h₁, hy₁⟩) (h₂ | ⟨h₂, hy₂⟩)
  · exact Or.inl (lt_trans h₁ h₂)
  · exact Or.inl (h₂ ▸ h₁)
  · exact Or.inl (h₁ ▸ h₂)
  · exact Or.inr ⟨h₁.trans h₂, le_trans hy₁ hy₂⟩

/-- The case-insensitive substring county filter shared by all writers. -/
def countyFilterKeep (filt : String) (field : String) (r : Dict) : Bool :=
  strContains (strLower (dgetD r field "")) (strLower filt)

/-- `if county_filter:` — an absent or empty (falsy) filter keeps all rows. -/
def applyCountyFilter (rows : List Dict) (county_filter : Option String)
    (field : String) : List Dict :=
  match county_filter with
  | none => rows
  | some f => if f = "" then rows else rows.filter (countyFilterKeep f field)

/-- write_csv from census_api/client.py as a pure function: returns the
emitted CSV rows (header first when requested) and the count of data
rows, none when the sort key raises. Zero surviving rows short-circuit
to an empty emission and count 0 before any sorting or writing. The
descending sort runs only when the sort label is truthy: an absent or
empty label takes the default ascending (NAME, year) sort. -/
def write_csv (rows : List Dict) (vars : List Variable) (show_year : Bool)
    (county_filter : Option String) (sort_col : Option String) (header : Bool) :
    Option (List (List String) × Nat) :=
  let rows := applyCountyFilter rows county_filter "NAME"
  if rows.isEmpty then some ([], 0)
  else
    let sorted? : Option (List Dict) :=
      match sort_col with
      | some sc =>
          -- `if sort_col:` — the empty label is falsy and falls through
          -- to the default ascending sort, like an absent label
          if sc = "" then some (List.insertionSort defaultLE rows)
          else trySortDesc rows (resolveSortCol vars sc)
      | none => some (List.insertionSort defaultLE rows)
    match sorted? with
    | none => none
    | some rows =>
        let columns := (if show_year then ["Year"] else []) ++ ["County"] ++
          vars.map (fun v => v.label)
        let dataRows := rows.map (fun r =>
          (if show_year then [dgetD r "year" ""] else []) ++
            [cleanCountyName (dgetD r "NAME" "")] ++
            vars.map (fun v => format_value (dget r v.code) v.format))
        some ((if header then [columns] else []) ++ dataRows, rows.length)

/-- The query command reports a distinct notice exactly when the writer
returned a zero count (cli.py, query): a no-data result, not an error. -/
def query_notice (count : Nat) : Option String :=
  if count = 0 then some "No matching rows found." else none

-- ── Measure tables and resolution ────────────────────────────────────────────
-- PLACES_MEASURES (places_api/client.py), ACCESS_MEASURES (cms_api) and
-- HPSA_MEASURES (hrsa_api) are static dicts in insertion order; each
-- resolver replaces the group list by all table keys when the list
-- mentions the selector all, and raises ValueError on an unknown name.
-- The ValueError message is modelled without the quote characters around
-- the offending name.

structure Measure where
  measureid : String
  label : String
  short_question : String
deriving DecidableEq

structure AccessMeasure where
  measure_id : String
  label : String
  description : String
deriving DecidableEq

structure HPSAMeasure where
  measure_id : String
  label : String
  description : String
deriving DecidableEq

def PLACES_MEASURES : List (String × List Measure) := [
  ("chronic_disease", [
    ⟨"DIABETES", "Diabetes", "Diagnosed diabetes among adults"⟩,
    ⟨"COPD", "COPD", "Chronic obstructive pulmonary disease among adults"⟩,
    ⟨"CHD", "Coronary Heart Disease", "Coronary heart disease among adults"⟩,
    ⟨"OBESITY", "Obesity", "Obesity among adults"⟩,
    ⟨"CSMOKING", "Smoking", "Current smoking among adults"⟩,
    ⟨"CASTHMA", "Current Asthma", "Current asthma among adults"⟩,
    ⟨"STROKE", "Stroke", "Stroke among adults"⟩,
    ⟨"BPHIGH", "High Blood Pressure", "High blood pressure among adults"⟩,
    ⟨"HIGHCHOL", "High Cholesterol", "High cholesterol among adults"⟩,
    ⟨"DEPRESSION", "Depression", "Depression among adults"⟩,
    ⟨"ARTHRITIS", "Arthritis", "Arthritis among adults"⟩,
    ⟨"CANCER", "Cancer (excl skin)", "Cancer (non-skin) among adults"⟩]),
  ("health_behaviors", [
    ⟨"BINGE", "Binge Drinking", "Binge drinking among adults"⟩,
    ⟨"LPA", "Physical Inactivity", "No leisure-time physical activity among adults"⟩,
    ⟨"SLEEP", "Short Sleep", "Sleeping less than 7 hours among adults"⟩]),
  ("prevention", [
    ⟨"CHECKUP", "Annual Checkup", "Visits to doctor for routine checkup"⟩,
    ⟨"DENTAL", "Dental Visit", "Visits to dentist or dental clinic"⟩,
    ⟨"CHOLSCREEN", "Cholesterol Screening", "Cholesterol screening among adults"⟩,
    ⟨"MAMMOUSE", "Mammography", "Mammography use among women 50-74"⟩,
    ⟨"COLON_SCREEN", "Colorectal Screening", "Colorectal cancer screening among adults 45-75"⟩]),
  ("disability", [
    ⟨"DISABILITY", "Any Disability", "Any disability among adults"⟩,
    ⟨"HEARING", "Hearing Disability", "Hearing disability among adults"⟩,
    ⟨"VISION", "Vision Disability", "Vision disability among adults"⟩,
    ⟨"COGNITION", "Cognitive Disability", "Cognitive disability among adults"⟩,
    ⟨"MOBILITY", "Mobility Disability", "Mobility disability among adults"⟩]),
  ("sdoh", [
    ⟨"FOODINSECU", "Food Insecurity", "Food insecurity among adults"⟩,
    ⟨"HOUSINSECU", "Housing Insecurity", "Housing insecurity among adults"⟩,
    ⟨"LACKTRPT", "Transportation Barriers", "Lack of transportation among adults"⟩]),
  ("mental_health", [
    ⟨"MHLTH", "Frequent Mental Distress", "Frequent mental distress among adults"⟩,
    ⟨"EMOTIONSPT", "Lack of Emotional Support", "Lack of social and emotional support among adults"⟩,
    ⟨"LONELINESS", "Loneliness", "Loneliness among adults"⟩])]

def ACCESS_MEASURES : List (String × List AccessMeasure) := [
  ("hospital_access", [
    ⟨"hospital_count", "Hospital Count", "Total hospitals in county"⟩,
    ⟨"acute_care_hospitals", "Acute Care Hospitals", "Acute care hospital count"⟩,
    ⟨"critical_access_hospitals", "Critical Access Hospitals", "Critical access hospital count"⟩,
    ⟨"emergency_services", "Emergency Services", "Hospitals with emergency services"⟩,
    ⟨"birthing_friendly", "Birthing Friendly", "Birthing-friendly designated hospitals"⟩,
    ⟨"avg_hospital_rating", "Avg Hospital Rating", "Average CMS overall hospital rating"⟩])]

def HPSA_MEASURES : List (String × List HPSAMeasure) := [
  ("primary_care_shortage", [
    ⟨"pc_hpsa_count", "Primary Care HPSA Count", "Number of primary care HPSA designations"⟩,
    ⟨"pc_hpsa_max_score", "Primary Care Max HPSA Score", "Maximum HPSA score (higher = greater shortage)"⟩,
    ⟨"pc_hpsa_avg_score", "Primary Care Avg HPSA Score", "Average HPSA score across designations"⟩,
    ⟨"pc_underserved_pop", "Primary Care Underserved Pop", "Estimated underserved population"⟩]),
  ("mental_health_shortage", [
    ⟨"mh_hpsa_count", "Mental Health HPSA Count", "Number of mental health HPSA designations"⟩,
    ⟨"mh_hpsa_max_score", "Mental Health Max HPSA Score", "Maximum HPSA score (higher = greater shortage)"⟩,
    ⟨"mh_hpsa_avg_score", "Mental Health Avg HPSA Score", "Average HPSA score across designations"⟩,
    ⟨"mh_underserved_pop", "Mental Health Underserved Pop", "Estimated underserved population"⟩])]

/-- The shared resolver loop: extend with each named group, raising on
the first name that is not a table key. -/
def resolveGo {μ : Type} (table : List (String × List μ)) (err : String → String) :
    List String → Except String (List μ)
  | [] => .ok []
  | g :: rest =>
      match lookupA table g with
      | none => .error (err g)
      | some ms =>
          match resolveGo table err rest with
          | .ok tail => .ok (ms ++ tail)
          | .error e => .error e

def resolveFrom {μ : Type} (table : List (String × List μ)) (err : String → String)
    (groups : List String) : Except String (List μ) :=
  let gs := if groups.contains "all" then table.map Prod.fst else groups
  resolveGo table err gs

def resolve_measures (groups : List String) : Except String (List Measure) :=
  resolveFrom PLACES_MEASURES
    (fun g => "Unknown PLACES group " ++ g ++ ". Available: " ++
      String.intercalate ", " (PLACES_MEASURES.map Prod.fst)) groups

def resolve_access_measures (groups : List String) : Except String (List AccessMeasure) :=
  resolveFrom ACCESS_MEASURES
    (fun g => "Unknown access group " ++ g ++ ". Available: " ++
      String.intercalate ", " (ACCESS_MEASURES.map Prod.fst)) groups

def resolve_hpsa_measures (groups : List String) : Except String (List HPSAMeasure) :=
  resolveFrom HPSA_MEASURES
    (fun g => "Unknown shortage group " ++ g ++ ". Available: " ++
      String.intercalate ", " (HPSA_MEASURES.map Prod.fst)) groups

def ALL_PLACES : List Measure := (PLACES_MEASURES.map Prod.snd).flatten

def ALL_ACCESS : List AccessMeasure := (ACCESS_MEASURES.map Prod.snd).flatten

def exceptIsOk {ε α : Type} : Except ε α → Bool
  | .ok _ => true
  | .error _ => false

-- ── Batched ACS fetch (census_api/client.py, fetch_acs_data) ─────────────────
-- The HTTP fetch of one batch is abstracted as a function from the code
-- chunk to the returned rows; fetch_acs_data splits codes into chunks of
-- at most MAX_VARS_PER_CALL, fetches each, and merges rows by the
-- state+county composite key, later chunks folding into the merged dict.

def chunksOf (n : Nat) (l : List String) : List (List String) :=
  if l.isEmpty ∨ n = 0 then []
  else l.take n :: chunksOf n (l.drop n)
termination_by l.length
decreasing_by
  rename_i h
  push_neg at h
  have h1 : l ≠ [] := by
    intro he
    subst he
    simp at h
  have h2 : 0 < n := Nat.pos_of_ne_zero h.2
  have h3 : 0 < l.length := List.length_pos.2 h1
  simpa using Nat.sub_lt h3 h2

/-- The composite merge key row["state"] + row["county"]; a missing key
would raise KeyError in Python, the census API returns both fields in
every row, and the theorems assume their presence. -/
def acsKey (row : Dict) : String := dgetD row "state" "" ++ dgetD row "county" ""

def acsMergeFold (m : List (String × Dict)) (rows : List Dict) : List (String × Dict) :=
  groupFold (fun row => some (acsKey row)) (fun _ row => row)
    (fun ex row => dupdate ex row) m rows

def fetch_acs_data (fetchBatch : List String → List Dict) (vars : List Variable) :
    List Dict :=
  let all_codes := vars.map (fun v => v.code)
  if all_codes.length ≤ MAX_VARS_PER_CALL then fetchBatch all_codes
  else
    let chunks := chunksOf MAX_VARS_PER_CALL all_codes
    (chunks.foldl (fun m chunk => acsMergeFold m (fetchBatch chunk)) []).map Prod.snd

-- ── Shared claim-support lemmas ──────────────────────────────────────────────

/-- Every entry of a group fold started from the empty map is the fold of
the per-key record group over the fresh initial accumulator. -/
theorem groupFold_entry_char {ρ β : Type} (keyOf : ρ → Option String)
    (init : String → β) (upd : β → ρ → β) (recs : List ρ) (e : String × β)
    (he : e ∈ groupFold keyOf (fun c r => upd (init c) r) upd [] recs) :
    recs.filter (fun r => keyOf r = some e.1) ≠ [] ∧
    e.2 = (recs.filter (fun r => keyOf r = some e.1)).foldl upd (init e.1) := by
  have nd := keysA_groupFold_nodup keyOf (fun c r => upd (init c) r) upd [] recs
    (by simp [keysA])
  have hl := (mem_iff_lookupA _ e.1 e.2 nd).1 (by
    cases e
    exact he)
  rw [lookupA_groupFold] at hl
  cases hg : recs.filter (fun r => keyOf r = some e.1) with
  | nil =>
      rw [hg] at hl
      cases hl
  | cons r0 l =>
      rw [hg, lookupA_nil, foldl_accStep_cons_none] at hl
      injection hl with h2
      refine ⟨by simp, ?_⟩
      rw [List.foldl_cons]
      exact h2.symm

theorem hosp_fold_county (l : List Dict) (c : String) :
    (l.foldl hospUpd (hospInit c)).county = c := by
  rw [hospUpd_foldl]
  rfl

theorem hpsa_fold_county (l : List AttrDict) (c : String) :
    (l.foldl hpsaUpd (hpsaInit c)).county = c := by
  rw [hpsaUpd_foldl]
  rfl

def hospGroupOf (records : List Dict) (c : String) : List Dict :=
  records.filter (fun r => hospKeyOf r = some c)

def hpsaGroupOf (features : List AttrDict) (c : String) : List AttrDict :=
  features.filter (fun f => hpsaKeyOf f = some c)

/-- Every output row of the hospital aggregator is the finalization of the
fold over its county group. -/
theorem hosp_row_char (records : List Dict) (row : HospRow)
    (h : row ∈ aggregate_hospitals_by_county records) :
    hospGroupOf records row.county ≠ [] ∧
    row = hospFinalize ((hospGroupOf records row.county).foldl hospUpd
      (hospInit row.county)) := by
  rw [aggregate_hospitals_by_county, List.mem_insertionSort] at h
  obtain ⟨e, he, hrow⟩ := List.mem_map.1 h
  have hchar := groupFold_entry_char hospKeyOf hospInit hospUpd records e he
  have hcounty : row.county = e.1 := by
    rw [← hrow, hospFinalize]
    rw [hchar.2, hosp_fold_county]
  rw [hospGroupOf, hcounty]
  exact ⟨hchar.1, by rw [← hrow, hchar.2]⟩

/-- Every output row of the HPSA aggregator is the finalization of the
fold over its county group. -/
theorem hpsa_row_char (features : List AttrDict) (row : HpsaRow)
    (h : row ∈ aggregate_hpsa_by_county features) :
    hpsaGroupOf features row.county ≠ [] ∧
    row = hpsaFinalize ((hpsaGroupOf features row.county).foldl hpsaUpd
      (hpsaInit row.county)) := by
  rw [aggregate_hpsa_by_county, List.mem_insertionSort] at h
  obtain ⟨e, he, hrow⟩ := List.mem_map.1 h
  have hchar := groupFold_entry_char hpsaKeyOf hpsaInit hpsaUpd features e he
  have hcounty : row.county = e.1 := by
    rw [← hrow, hpsaFinalize]
    rw [hchar.2, hpsa_fold_county]
  rw [hpsaGroupOf, hcounty]
  exact ⟨hchar.1, by rw [← hrow, hchar.2]⟩

-- ── Claims ───────────────────────────────────────────────────────────────────

/-- C7: every sentinel in the suppressed set, as well as None/absent and
the empty string, formats to the empty string under every format kind;
in particular never as a zero or NaN rendering. -/
theorem C7_suppressed_formats_empty (fmt : String) (v : Option String)
    (hv : v ∈ SUPPRESSED ∨ v = none ∨ v = some "") :
    format_value v fmt = "" := by
  rcases hv with hv | hv | hv
  · rw [format_value, if_pos (Or.inl hv)]
  · rw [format_value, if_pos (Or.inr hv)]
  · subst hv
    rfl

theorem C7_witness :
    ((some "null" ∈ SUPPRESSED ∨ (some "null" : Option String) = none ∨
        some "null" = some "") ∧ format_value (some "null") "number" = "") ∧
      format_value (some "") "percent" = "" ∧ format_value none "decimal" = "" ∧
      format_value (some "-666666666") "dollar" = "" :=
  ⟨⟨by decide, C7_suppressed_formats_empty "number" (some "null") (by decide)⟩,
    C7_suppressed_formats_empty "percent" (some "") (by decide),
    C7_suppressed_formats_empty "decimal" none (by decide),
    C7_suppressed_formats_empty "dollar" (some "-666666666") (by decide)⟩

/-- C3: a pivoted cell stores str(round(value / 100, 4)) when the raw
string parses as a number and the raw string unchanged otherwise; in
particular raw 12.3 renders as 0.123 and raw abc passes through, both as
isolated conversions and through the pivot itself. -/
theorem C3_pivot_value_conversion :
    (∀ raw q, parseDecimal raw = some q →
        convertValue raw = ratToStr (pyRound (qDiv q (qOfInt 100)) 4)) ∧
    (∀ raw, parseDecimal raw = none → convertValue raw = raw) ∧
    (∀ rec vc, pivot_rows [rec] vc =
        [dset [("locationname", cleanCountyName (dgetD rec "locationname" ""))]
          (dgetD rec "measureid" "") (convertValue (dgetD rec vc ""))]) ∧
    convertValue "12.3" = "0.123" ∧ convertValue "abc" = "abc" ∧
    pivot_rows [[("locationname", "Wayne"), ("measureid", "DIABETES"),
        ("data_value", "12.3")]] "data_value" =
      [[("locationname", "Wayne"), ("DIABETES", "0.123")]] ∧
    pivot_rows [[("locationname", "Wayne"), ("measureid", "DIABETES"),
        ("data_value", "abc")]] "data_value" =
      [[("locationname", "Wayne"), ("DIABETES", "abc")]] := by
  refine ⟨?_, ?_, ?_, by decide, by decide, by decide, by decide⟩
  · intro raw q h
    rw [convertValue, h]
  · intro raw h
    rw [convertValue, h]
  · intro rec vc
    rfl

theorem C3_witness :
    parseDecimal "12.3" = some (mkRat 123 10) ∧
      convertValue "12.3" = ratToStr (pyRound (qDiv (mkRat 123 10) (qOfInt 100)) 4) ∧
      parseDecimal "abc" = none ∧ convertValue "abc" = "abc" :=
  ⟨by decide, C3_pivot_value_conversion.1 "12.3" (mkRat 123 10) (by decide),
    by decide, C3_pivot_value_conversion.2.1 "abc" (by decide)⟩

theorem resolveGo_isOk_iff {μ : Type} (table : List (String × List μ))
    (err : String → String) (gs : List String) :
    exceptIsOk (resolveGo table err gs) = false ↔
      ∃ g ∈ gs, lookupA table g = none := by
  induction gs with
  | nil => simp [resolveGo, exceptIsOk]
  | cons g rest ih =>
      rw [resolveGo]
      cases hl : lookupA table g with
      | none =>
          constructor
          · intro _
            exact ⟨g, List.mem_cons_self g rest, hl⟩
          · intro _
            rfl
      | some ms =>
          cases hr : resolveGo table err rest with
          | ok tail =>
              rw [hr] at ih
              constructor
              · intro h
                simp [exceptIsOk] at h
              · rintro ⟨g', hg', hnone⟩
                rcases List.mem_cons.1 hg' with rfl | hg'
                · rw [hl] at hnone
                  cases hnone
                · exact absurd (ih.2 ⟨g', hg', hnone⟩) (by simp [exceptIsOk])
          | error e =>
              rw [hr] at ih
              constructor
              · intro _
                obtain ⟨g', hg', hnone⟩ := ih.1 rfl
                exact ⟨g', List.mem_cons_of_mem g hg', hnone⟩
              · intro _
                rfl

/-- C8 (amended): when the group list does not mention the selector all,
resolution fails exactly when some requested name is absent from the
static table; a list mentioning all always resolves to the full measure
list, ignoring any unknown names beside it. Shown for the PLACES and the
HRSA resolver. -/
theorem C8_amended_unknown_selector (groups : List String) :
    ("all" ∉ groups →
      (exceptIsOk (resolve_measures groups) = false ↔
        ∃ g ∈ groups, lookupA PLACES_MEASURES g = none)) ∧
    ("all" ∈ groups → resolve_measures groups = .ok ALL_PLACES) ∧
    ("all" ∉ groups →
      (exceptIsOk (resolve_hpsa_measures groups) = false ↔
        ∃ g ∈ groups, lookupA HPSA_MEASURES g = none)) ∧
    ("all" ∈ groups →
      resolve_hpsa_measures groups = .ok ((HPSA_MEASURES.map Prod.snd).flatten)) := by
  refine ⟨?_, ?_, ?_, ?_⟩
  · intro h
    rw [resolve_measures, resolveFrom, if_neg (by simpa using h)]
    exact resolveGo_isOk_iff PLACES_MEASURES _ groups
  · intro h
    rw [resolve_measures, resolveFrom, if_pos (by simpa using h)]
    rfl
  · intro h
    rw [resolve_hpsa_measures, resolveFrom, if_neg (by simpa using h)]
    exact resolveGo_isOk_iff HPSA_MEASURES _ groups
  · intro h
    rw [resolve_hpsa_measures, resolveFrom, if_pos (by simpa using h)]
    rfl

/-- C8 counterexample: a group list containing the unknown name
bogus_group still resolves successfully because it also mentions all,
contradicting the claim that any list containing an unknown name fails. -/
theorem C8_counterexample :
    lookupA PLACES_MEASURES "bogus_group" = none ∧
    resolve_measures ["all", "bogus_group"] = .ok ALL_PLACES ∧
    exceptIsOk (resolve_measures ["all", "bogus_group"]) = true :=
  ⟨rfl, rfl, rfl⟩

theorem C8_witness :
    ("all" ∉ (["bogus_group"] : List String) ∧
      (exceptIsOk (resolve_measures ["bogus_group"]) = false ↔
        ∃ g ∈ (["bogus_group"] : List String), lookupA PLACES_MEASURES g = none)) ∧
    exceptIsOk (resolve_measures ["bogus_group"]) = false :=
  ⟨⟨by decide, (C8_amended_unknown_selector ["bogus_group"]).1 (by decide)⟩, rfl⟩

/-- C6: resolving any single valid group yields a sublist of resolving
all, and resolving all lists every measure of every group exactly once,
with no duplicates; shown for the PLACES tables and the CMS access
tables named by the claim. -/
theorem C6_resolve_subset_and_all_exactly_once :
    (resolve_measures ["all"] = .ok ALL_PLACES ∧ ALL_PLACES.Nodup ∧
      ∀ p ∈ PLACES_MEASURES, resolve_measures [p.1] = .ok p.2 ∧
        ∀ m ∈ p.2, m ∈ ALL_PLACES ∧ ALL_PLACES.count m = 1) ∧
    (resolve_access_measures ["all"] = .ok ALL_ACCESS ∧ ALL_ACCESS.Nodup ∧
      ∀ p ∈ ACCESS_MEASURES, resolve_access_measures [p.1] = .ok p.2 ∧
        ∀ m ∈ p.2, m ∈ ALL_ACCESS ∧ ALL_ACCESS.count m = 1) := by
  constructor
  · refine ⟨rfl, by decide, ?_⟩
    intro p hp
    fin_cases hp <;> exact ⟨rfl, by decide⟩
  · refine ⟨rfl, by decide, ?_⟩
    intro p hp
    fin_cases hp
    exact ⟨rfl, by decide⟩

theorem C6_witness :
    ("chronic_disease", (PLACES_MEASURES.map Prod.snd).headD []) ∈ PLACES_MEASURES ∧
      resolve_measures ["chronic_disease"] =
        .ok ((PLACES_MEASURES.map Prod.snd).headD []) :=
  ⟨by decide,
    ((C6_resolve_subset_and_all_exactly_once.1.2.2
      ("chronic_disease", (PLACES_MEASURES.map Prod.snd).headD []) (by decide)).1)⟩

/-- C2 (amended): the rendered underserved-population sum of an HPSA
county row is the empty string exactly when the accumulated integer sum
is zero, whether or not valid numeric observations occurred; a nonzero
sum renders as its integer string. (The claim as stated additionally
requires zero observations for the blank rendering; the code renders a
zero sum as blank even with observations.) -/
theorem C2_amended_sum_blank_iff_zero (features : List AttrDict) (row : HpsaRow)
    (h : row ∈ aggregate_hpsa_by_county features) :
    row.underserved_pop =
      if ((hpsaGroupOf features row.county).filterMap hpsaPopOf).sum = 0 then ""
      else intToStr ((hpsaGroupOf features row.county).filterMap hpsaPopOf).sum := by
  obtain ⟨hne, hrow⟩ := hpsa_row_char features row h
  generalize hc : row.county = c at hrow ⊢
  rw [hrow, hpsaUpd_foldl, hpsaFinalize]
  simp [hpsaInit]

def c2Feature : AttrDict :=
  [("CMN_STATE_COUNTY_FIPS_CD", some "26163"), ("HPSA_SCORE", some "20"),
   ("HPSA_ESTIMATED_UNDERSERVED_POP", some "0")]

/-- C2 counterexample: a single Wayne county feature with the valid
numeric observation 0 for the underserved population; one observation
occurred and the sum is zero, yet the rendered sum column is the empty
string, where the claim as stated requires the rendering 0. -/
theorem C2_counterexample :
    ([c2Feature].filterMap hpsaPopOf).length = 1 ∧
    aggregate_hpsa_by_county [c2Feature] =
      [⟨"Wayne", 1, "20.0", "20.0", ""⟩] := by
  constructor
  · decide
  · decide

theorem C2_witness :
    (⟨"Wayne", 1, "20.0", "20.0", ""⟩ : HpsaRow) ∈ aggregate_hpsa_by_county [c2Feature] ∧
    (⟨"Wayne", 1, "20.0", "20.0", ""⟩ : HpsaRow).underserved_pop =
      if ((hpsaGroupOf [c2Feature] "Wayne").filterMap hpsaPopOf).sum = 0 then ""
      else intToStr ((hpsaGroupOf [c2Feature] "Wayne").filterMap hpsaPopOf).sum :=
  ⟨by decide, C2_amended_sum_blank_iff_zero [c2Feature] _ (by decide)⟩

theorem hosp_counts_le (l : List Dict) :
    l.countP hospIsAcute + l.countP hospIsCritical ≤ l.length ∧
    l.countP hospHasEmergency ≤ l.length ∧
    l.countP hospIsBirthing ≤ l.length := by
  induction l with
  | nil => simp
  | cons r t ih =>
      rw [List.countP_cons, List.countP_cons, List.countP_cons, List.countP_cons,
        List.length_cons]
      rcases ih with ⟨i1, i2, i3⟩
      by_cases ha : hospIsAcute r = true
      · have hcrit : hospIsCritical r = false := by simp [hospIsCritical, ha]
        rw [if_pos ha, if_neg (by simp [hcrit])]
        refine ⟨by omega, ?_, ?_⟩ <;> split_ifs <;> omega
      · rw [if_neg ha]
        refine ⟨?_, ?_, ?_⟩ <;> split_ifs <;> omega

/-- C10: in every hospital county row, each conditional count is at most
the hospital count, and the acute-care and critical-access counts sum to
at most the hospital count, because the elif classification counts each
record as at most one of the two types. -/
theorem C10_conditional_counts_bounded (records : List Dict) (row : HospRow)
    (h : row ∈ aggregate_hospitals_by_county records) :
    row.acute_care_hospitals + row.critical_access_hospitals ≤ row.hospital_count ∧
    row.acute_care_hospitals ≤ row.hospital_count ∧
    row.critical_access_hospitals ≤ row.hospital_count ∧
    row.emergency_services ≤ row.hospital_count ∧
    row.birthing_friendly ≤ row.hospital_count := by
  obtain ⟨hne, hrow⟩ := hosp_row_char records row h
  generalize hc : row.county = c at hrow
  rw [hrow, hospUpd_foldl, hospFinalize]
  obtain ⟨h1, h2, h3⟩ := hosp_counts_le (hospGroupOf records c)
  simp only [hospInit]
  refine ⟨by omega, by omega, by omega, by omega, by omega⟩

def c10Rec : Dict :=
  [("countyparish", "WAYNE"), ("hospital_type", "Acute Care Hospitals"),
   ("emergency_services", "Yes"), ("hospital_overall_rating", "4"),
   ("meets_criteria_for_birthing_friendly_designation", "Y")]

theorem C10_witness :
    (⟨"Wayne", 1, 1, 0, 1, 1, "4.0"⟩ : HospRow) ∈
      aggregate_hospitals_by_county [c10Rec] ∧
    (⟨"Wayne", 1, 1, 0, 1, 1, "4.0"⟩ : HospRow).acute_care_hospitals +
      (⟨"Wayne", 1, 1, 0, 1, 1, "4.0"⟩ : HospRow).critical_access_hospitals ≤
      (⟨"Wayne", 1, 1, 0, 1, 1, "4.0"⟩ : HospRow).hospital_count :=
  ⟨by decide, (C10_conditional_counts_bounded [c10Rec] _ (by decide)).1⟩

/-- C9: the county filter keeps exactly the rows whose NAME field
contains the filter as a case-insensitive substring; when zero rows
survive, the writer emits no header and no data rows and returns count
0 (an ok result, not a failure), and the caller reports the distinct
no-data notice exactly for a zero count. -/
theorem C9_filter_and_empty_result (rows : List Dict) (vars : List Variable)
    (f : String) (hf : f ≠ "") :
    (∀ r, r ∈ applyCountyFilter rows (some f) "NAME" ↔
        r ∈ rows ∧ countyFilterKeep f "NAME" r = true) ∧
    (applyCountyFilter rows (some f) "NAME" = [] →
      (∀ sy sc hd, write_csv rows vars sy (some f) sc hd = some ([], 0)) ∧
      query_notice 0 = some "No matching rows found." ∧
      (∀ n, n ≠ 0 → query_notice n = none)) := by
  constructor
  · intro r
    rw [applyCountyFilter, if_neg hf]
    exact List.mem_filter
  · intro he
    refine ⟨?_, rfl, ?_⟩
    · intro sy sc hd
      simp only [write_csv, he, List.isEmpty_nil, if_true]
    · intro n hn
      rw [query_notice, if_neg hn]

theorem C9_witness :
    ((["x"] : List String) ≠ [] → False) ∨
      ((∀ r, r ∈ applyCountyFilter [[("NAME", "Wayne County, Michigan")]]
            (some "nowhere") "NAME" ↔
          r ∈ [[("NAME", "Wayne County, Michigan")]] ∧
            countyFilterKeep "nowhere" "NAME" r = true) ∧
        write_csv [[("NAME", "Wayne County, Michigan")]] [] false
          (some "nowhere") none true = some ([], 0) ∧
        query_notice 0 = some "No matching rows found.") := by
  refine Or.inr ⟨?_, ?_, ?_⟩
  · exact (C9_filter_and_empty_result [[("NAME", "Wayne County, Michigan")]] []
      "nowhere" (by decide)).1
  · exact ((C9_filter_and_empty_result [[("NAME", "Wayne County, Michigan")]] []
      "nowhere" (by decide)).2 (by decide)).1 false none true
  · exact ((C9_filter_and_empty_result [[("NAME", "Wayne County, Michigan")]] []
      "nowhere" (by decide)).2 (by decide)).2.1

/-- C4 (amended): the sorter resolves the label case-insensitively with a
literal-field-id fallback; an empty (falsy) sort label skips the
descending sort entirely and behaves like an absent one; missing and
empty values sort as zero, and when every value in the resolved column
is present-and-numeric or missing-or-empty the sort succeeds, yielding
a permutation of the rows in non-increasing key order without changing
row contents; but a non-empty non-numeric value in the resolved column
makes the key function raise, so the sort (and write_csv, under a
non-empty label) fails instead of treating the value as zero. -/
theorem C4_amended_sort_descending (rows : List Dict) (vars : List Variable)
    (sc : String) :
    (∀ v, vars.find? (fun v => strLower v.label = strLower sc) = some v →
        resolveSortCol vars sc = v.code) ∧
    (vars.find? (fun v => strLower v.label = strLower sc) = none →
        resolveSortCol vars sc = sc) ∧
    (∀ r, dget r (resolveSortCol vars sc) = none →
        sortKeyQ r (resolveSortCol vars sc) = some 0) ∧
    (∀ r, dget r (resolveSortCol vars sc) = some "" →
        sortKeyQ r (resolveSortCol vars sc) = some 0) ∧
    ((∀ r ∈ rows, (sortKeyQ r (resolveSortCol vars sc)).isSome = true) →
        ∃ sorted, trySortDesc rows (resolveSortCol vars sc) = some sorted ∧
          sorted.Perm rows ∧ sorted.Sorted (sortGE (resolveSortCol vars sc))) ∧
    (sc = "" → ∀ sy cf hd,
        write_csv rows vars sy cf (some sc) hd = write_csv rows vars sy cf none hd) ∧
    ((∃ r ∈ rows, sortKeyQ r (resolveSortCol vars sc) = none) →
        trySortDesc rows (resolveSortCol vars sc) = none ∧
        (sc ≠ "" → rows ≠ [] →
          write_csv rows vars false none (some sc) true = none)) := by
  refine ⟨?_, ?_, ?_, ?_, ?_, ?_, ?_⟩
  · intro v hv
    rw [resolveSortCol, hv]
  · intro hv
    rw [resolveSortCol, hv]
  · intro r hr
    rw [sortKeyQ, hr]
  · intro r hr
    rw [sortKeyQ, hr]
    rfl
  · intro hall
    refine ⟨List.insertionSort (sortGE (resolveSortCol vars sc)) rows, ?_, ?_, ?_⟩
    · rw [trySortDesc, if_pos (List.all_eq_true.2 hall)]
    · exact List.perm_insertionSort _ rows
    · exact List.sorted_insertionSort _ rows
  · intro hsc sy cf hd
    subst hsc
    rw [write_csv, write_csv, if_pos rfl]
  · rintro ⟨r, hr, hnone⟩
    have htry : trySortDesc rows (resolveSortCol vars sc) = none := by
      rw [trySortDesc, if_neg]
      intro hall
      have := List.all_eq_true.1 hall r hr
      rw [hnone] at this
      cases this
    refine ⟨htry, ?_⟩
    intro hsc hne
    have hie : rows.isEmpty = false := by
      cases rows with
      | nil => exact absurd rfl hne
      | cons a t => rfl
    simp only [write_csv, applyCountyFilter, hie, Bool.false_eq_true, if_false,
      if_neg hsc, htry]

def c4Row : Dict := [("NAME", "Wayne"), ("X1", "abc")]

/-- C4 counterexample: sorting by a column holding the non-empty
non-numeric value abc raises inside the key function instead of treating
the value as zero, so write_csv fails, contradicting the claim that the
sort never fails. -/
theorem C4_counterexample :
    sortKeyQ c4Row "X1" = none ∧
    write_csv [c4Row] [⟨"X1", "Thing", "number"⟩] false none (some "X1") true =
      none := by
  constructor
  · decide
  · decide

theorem C4_witness :
    ((∃ r ∈ [c4Row], sortKeyQ r (resolveSortCol [⟨"X1", "Thing", "number"⟩] "X1") = none) ∧
      trySortDesc [c4Row] (resolveSortCol [⟨"X1", "Thing", "number"⟩] "X1") = none) ∧
    (∃ sorted, trySortDesc [[("NAME", "Wayne"), ("X1", "5")]]
        (resolveSortCol [⟨"X1", "Thing", "number"⟩] "X1") = some sorted ∧
      sorted.Perm [[("NAME", "Wayne"), ("X1", "5")]] ∧
      sorted.Sorted (sortGE (resolveSortCol [⟨"X1", "Thing", "number"⟩] "X1"))) ∧
    write_csv [c4Row] [⟨"X1", "Thing", "number"⟩] false none (some "") true =
      write_csv [c4Row] [⟨"X1", "Thing", "number"⟩] false none none true :=
  ⟨⟨⟨c4Row, by decide, by decide⟩,
    ((C4_amended_sort_descending [c4Row] [⟨"X1", "Thing", "number"⟩] "X1").2.2.2.2.2.2
      ⟨c4Row, by decide, by decide⟩).1⟩,
    (C4_amended_sort_descending [[("NAME", "Wayne"), ("X1", "5")]]
      [⟨"X1", "Thing", "number"⟩] "X1").2.2.2.2.1 (by decide),
    (C4_amended_sort_descending [c4Row] [⟨"X1", "Thing", "number"⟩] "").2.2.2.2.2.1
      rfl false none true⟩

-- C5 support: chunk structure and dict-merge domains.

theorem chunksOf_flatten (n : Nat) (hn : n ≠ 0) (l : List String) :
    (chunksOf n l).flatten = l := by
  rw [chunksOf]
  by_cases he : l.isEmpty
  · rw [if_pos (Or.inl he)]
    rw [List.isEmpty_iff] at he
    rw [he]
    rfl
  · rw [if_neg (by simp [he, hn]), List.flatten_cons,
      chunksOf_flatten n hn (l.drop n), List.take_append_drop]
termination_by l.length
decreasing_by
  have h1 : l ≠ [] := by
    intro hw
    subst hw
    exact he rfl
  have h2 : 0 < n := Nat.pos_of_ne_zero hn
  have h3 : 0 < l.length := List.length_pos.2 h1
  simpa using Nat.sub_lt h3 h2

theorem chunksOf_bounds (n : Nat) (hn : n ≠ 0) (l : List String) :
    ∀ c ∈ chunksOf n l, c.length ≤ n ∧ c ≠ [] := by
  intro c hc
  rw [chunksOf] at hc
  by_cases he : l.isEmpty
  · rw [if_pos (Or.inl he)] at hc
    cases hc
  · rw [if_neg (by simp [he, hn])] at hc
    rcases List.mem_cons.1 hc with rfl | hc
    · refine ⟨by simp, ?_⟩
      have h1 : l ≠ [] := by
        intro hw
        subst hw
        exact he rfl
      intro hw
      rw [List.take_eq_nil_iff] at hw
      rcases hw with hw | hw
      · exact hn hw
      · exact h1 hw
    · exact chunksOf_bounds n hn (l.drop n) c hc
termination_by l.length
decreasing_by
  have h1 : l ≠ [] := by
    intro hw
    subst hw
    exact he rfl
  have h2 : 0 < n := Nat.pos_of_ne_zero hn
  have h3 : 0 < l.length := List.length_pos.2 h1
  simpa using Nat.sub_lt h3 h2

theorem dget_dset (d : Dict) (k v f : String) :
    dget (dset d k v) f = if k = f then some v else dget d f := by
  rw [dset]
  by_cases hmem : (lookupA d k).isSome = true
  · rw [if_pos hmem, dget, lookupA_replaceA]
    by_cases hfk : f = k
    · subst hfk
      obtain ⟨b, hb⟩ := Option.isSome_iff_exists.1 hmem
      rw [if_pos rfl, if_pos rfl, hb]
      rfl
    · rw [if_neg hfk, if_neg (fun h => hfk h.symm)]
      rfl
  · rw [if_neg hmem, dget, lookupA_append_single]
    have hnone : lookupA d k = none := by
      cases hl : lookupA d k with
      | none => rfl
      | some b =>
          rw [hl] at hmem
          exact absurd rfl hmem
    by_cases hkf : k = f
    · subst hkf
      rw [hnone]
      simp
    · cases hl : lookupA d f <;> simp [Option.orElse, hkf, dget, hl]

theorem dget_dupdate_isSome (e : Dict) (d : Dict) (f : String) :
    (dget (dupdate d e) f).isSome = true ↔
      (dget e f).isSome = true ∨ (dget d f).isSome = true := by
  induction e generalizing d with
  | nil =>
      simp only [dupdate, List.foldl_nil, dget, lookupA_nil]
      simp
  | cons kv e ih =>
      obtain ⟨k, v⟩ := kv
      have hstep : dupdate d ((k, v) :: e) = dupdate (dset d k v) e := rfl
      have hc : dget ((k, v) :: e) f = if k = f then some v else dget e f :=
        lookupA_cons k v e f
      rw [hstep, ih, dget_dset, hc]
      by_cases hkf : k = f
      · simp [hkf]
      · simp [hkf, dget]

theorem dget_foldl_dupdate_isSome (l : List Dict) (d : Dict) (f : String) :
    (dget (l.foldl (fun ex row => dupdate ex row) d) f).isSome = true ↔
      (dget d f).isSome = true ∨ ∃ r ∈ l, (dget r f).isSome = true := by
  induction l generalizing d with
  | nil => simp
  | cons r t ih =>
      rw [List.foldl_cons, ih, dget_dupdate_isSome]
      constructor
      · rintro ((h | h) | ⟨r', hr', hf⟩)
        · exact Or.inr ⟨r, List.mem_cons_self r t, h⟩
        · exact Or.inl h
        · exact Or.inr ⟨r', List.mem_cons_of_mem r hr', hf⟩
      · rintro (h | ⟨r', hr', hf⟩)
        · exact Or.inl (Or.inr h)
        · rcases List.mem_cons.1 hr' with rfl | hr'
          · exact Or.inl (Or.inl hf)
          · exact Or.inr ⟨r', hr', hf⟩

def acsAllRows (fetchBatch : List String → List Dict) (codes : List String) :
    List Dict :=
  ((chunksOf MAX_VARS_PER_CALL codes).map fetchBatch).flatten

def acsMerged (fetchBatch : List String → List Dict) (codes : List String) :
    List (String × Dict) :=
  groupFold (fun row => some (acsKey row)) (fun _ row => row)
    (fun ex row => dupdate ex row) [] (acsAllRows fetchBatch codes)

theorem acsMergeFold_batches (batches : List (List Dict))
    (m : List (String × Dict)) :
    batches.foldl (fun m rows => acsMergeFold m rows) m =
      groupFold (fun row => some (acsKey row)) (fun _ row => row)
        (fun ex row => dupdate ex row) m batches.flatten := by
  induction batches generalizing m with
  | nil => rfl
  | cons b bs ih =>
      rw [List.foldl_cons, ih, List.flatten_cons, groupFold, groupFold,
        List.foldl_append]
      rfl

/-- C5: with more codes than the per-call cap the batched fetch splits
the codes into ordered chunks of at most 49 whose concatenation is the
original list, fetches each chunk, and merges the fetched rows by the
state+county composite key into exactly one row per entity (keys are
duplicate-free and cover exactly the fetched entities) whose field
domain is the union of the fields of all chunk rows for that entity;
with at most 49 codes a single batch is fetched and merging is bypassed. -/
theorem C5_batched_fetch_and_merge (fetchBatch : List String → List Dict)
    (vars : List Variable) :
    ((vars.map (fun v => v.code)).length ≤ MAX_VARS_PER_CALL →
      fetch_acs_data fetchBatch vars = fetchBatch (vars.map (fun v => v.code))) ∧
    (MAX_VARS_PER_CALL < (vars.map (fun v => v.code)).length →
      (chunksOf MAX_VARS_PER_CALL (vars.map (fun v => v.code))).flatten =
          vars.map (fun v => v.code) ∧
      (∀ c ∈ chunksOf MAX_VARS_PER_CALL (vars.map (fun v => v.code)),
          c.length ≤ MAX_VARS_PER_CALL ∧ c ≠ []) ∧
      fetch_acs_data fetchBatch vars =
        (acsMerged fetchBatch (vars.map (fun v => v.code))).map Prod.snd ∧
      (keysA (acsMerged fetchBatch (vars.map (fun v => v.code)))).Nodup ∧
      (∀ k, k ∈ keysA (acsMerged fetchBatch (vars.map (fun v => v.code))) ↔
          ∃ row ∈ acsAllRows fetchBatch (vars.map (fun v => v.code)),
            acsKey row = k) ∧
      (∀ k mrow,
          lookupA (acsMerged fetchBatch (vars.map (fun v => v.code))) k = some mrow →
          ∀ f, (dget mrow f).isSome = true ↔
            ∃ row ∈ acsAllRows fetchBatch (vars.map (fun v => v.code)),
              acsKey row = k ∧ (dget row f).isSome = true)) := by
  constructor
  · intro h
    rw [fetch_acs_data, if_pos h]
  · intro h
    have hcap : MAX_VARS_PER_CALL ≠ 0 := by decide
    refine ⟨chunksOf_flatten MAX_VARS_PER_CALL hcap _,
      chunksOf_bounds MAX_VARS_PER_CALL hcap _, ?_, ?_, ?_, ?_⟩
    · rw [fetch_acs_data, if_neg (not_le.2 h)]
      dsimp only
      rw [show (chunksOf MAX_VARS_PER_CALL (vars.map (fun v => v.code))).foldl
          (fun m chunk => acsMergeFold m (fetchBatch chunk)) [] =
          ((chunksOf MAX_VARS_PER_CALL (vars.map (fun v => v.code))).map
            fetchBatch).foldl (fun m rows => acsMergeFold m rows) [] from
        (List.foldl_map fetchBatch (fun m rows => acsMergeFold m rows) _ _).symm]
      rw [acsMergeFold_batches]
      rfl
    · exact keysA_groupFold_nodup _ _ _ [] _ (by simp [keysA])
    · intro k
      rw [acsMerged, mem_keysA_groupFold]
      constructor
      · rintro (h' | ⟨r, hr, hk⟩)
        · simp [keysA] at h'
        · exact ⟨r, hr, Option.some.inj hk⟩
      · rintro ⟨r, hr, hk⟩
        exact Or.inr ⟨r, hr, congrArg some hk⟩
    · intro k mrow hm f
      rw [acsMerged, lookupA_groupFold, lookupA_nil] at hm
      cases hg : (acsAllRows fetchBatch (vars.map (fun v => v.code))).filter
          (fun r => some (acsKey r) = some k) with
      | nil =>
          rw [hg] at hm
          cases hm
      | cons r0 l =>
          rw [hg, foldl_accStep_cons_none] at hm
          injection hm with hm
          rw [← hm, dget_foldl_dupdate_isSome]
          constructor
          · rintro (h' | ⟨r, hr, hf⟩)
            · have : r0 ∈ (acsAllRows fetchBatch (vars.map (fun v => v.code))).filter
                  (fun r => some (acsKey r) = some k) := by
                rw [hg]
                exact List.mem_cons_self r0 l
              obtain ⟨hr0m, hr0k⟩ := List.mem_filter.1 this
              exact ⟨r0, hr0m, Option.some.inj (by simpa using hr0k), h'⟩
            · have : r ∈ (acsAllRows fetchBatch (vars.map (fun v => v.code))).filter
                  (fun r => some (acsKey r) = some k) := by
                rw [hg]
                exact List.mem_cons_of_mem r0 hr
              obtain ⟨hrm, hrk⟩ := List.mem_filter.1 this
              exact ⟨r, hrm, Option.some.inj (by simpa using hrk), hf⟩
          · rintro ⟨r, hr, hk, hf⟩
            have : r ∈ (acsAllRows fetchBatch (vars.map (fun v => v.code))).filter
                (fun r => some (acsKey r) = some k) := by
              exact List.mem_filter.2 ⟨hr, by simp [hk]⟩
            rw [hg] at this
            rcases List.mem_cons.1 this with rfl | hmem
            · exact Or.inl hf
            · exact Or.inr ⟨r, hmem, hf⟩

def c5Vars : List Variable :=
  (List.range 50).map (fun i => ⟨natToStr i, natToStr i, "number"⟩)

def c5Fetch : List String → List Dict :=
  fun codes => [[("state", "26"), ("county", "163")] ++ codes.map (fun c => (c, "1"))]

theorem C5_witness :
    (MAX_VARS_PER_CALL < (c5Vars.map (fun v => v.code)).length ∧
      (chunksOf MAX_VARS_PER_CALL (c5Vars.map (fun v => v.code))).flatten =
        c5Vars.map (fun v => v.code)) ∧
    ((([⟨"B01001_001E", "Population", "number"⟩] : List Variable).map
        (fun v => v.code)).length ≤ MAX_VARS_PER_CALL ∧
      fetch_acs_data c5Fetch [⟨"B01001_001E", "Population", "number"⟩] =
        c5Fetch ["B01001_001E"]) :=
  ⟨⟨by decide, ((C5_batched_fetch_and_merge c5Fetch c5Vars).2 (by decide)).1⟩,
    ⟨by decide,
      (C5_batched_fetch_and_merge c5Fetch
        [⟨"B01001_001E", "Population", "number"⟩]).1 (by decide)⟩⟩

-- C1 support: permutation invariance of the per-county folds.

theorem foldl_max_mem (t : List ℚ) (a : ℚ) : t.foldl max a ∈ a :: t := by
  induction t generalizing a with
  | nil => simp
  | cons b t ih =>
      rw [List.foldl_cons]
      have hmem := ih (max a b)
      rcases List.mem_cons.1 hmem with he | he
      · rcases max_choice a b with hm | hm
        · rw [he, hm]
          exact List.mem_cons_self _ _
        · rw [he, hm]
          exact List.mem_cons_of_mem _ (List.mem_cons_self _ _)
      · exact List.mem_cons_of_mem _ (List.mem_cons_of_mem _ he)

theorem le_foldl_max (t : List ℚ) (a : ℚ) : ∀ x ∈ a :: t, x ≤ t.foldl max a := by
  induction t generalizing a with
  | nil =>
      intro x hx
      rcases List.mem_cons.1 hx with rfl | hx
      · exact le_refl x
      · cases hx
  | cons b t ih =>
      intro x hx
      rw [List.foldl_cons]
      rcases List.mem_cons.1 hx with rfl | hx
      · exact le_trans (le_max_left x b) (ih (max x b) _ (List.mem_cons_self _ _))
      rcases List.mem_cons.1 hx with rfl | hx
      · exact le_trans (le_max_right a x) (ih (max a x) _ (List.mem_cons_self _ _))
      · exact ih (max a b) x (List.mem_cons_of_mem _ hx)

theorem qListMax_perm (l₁ l₂ : List ℚ) (h : l₁.Perm l₂) :
    qListMax l₁ = qListMax l₂ := by
  have hqm : qMax = fun a b : ℚ => max a b :=
    funext fun a => funext fun b => qMax_eq a b
  cases l₁ with
  | nil =>
      cases l₂ with
      | nil => rfl
      | cons b u => exact absurd h.length_eq (by simp)
  | cons a t =>
      cases l₂ with
      | nil => exact absurd h.length_eq (by simp)
      | cons b u =>
          rw [qListMax, qListMax, hqm]
          apply le_antisymm
          · exact le_foldl_max u b _ (h.mem_iff.1 (foldl_max_mem t a))
          · exact le_foldl_max t a _ (h.mem_iff.2 (foldl_max_mem u b))

theorem hosp_finalize_fold_perm (c : String) (l₁ l₂ : List Dict) (h : l₁.Perm l₂) :
    hospFinalize (l₁.foldl hospUpd (hospInit c)) =
      hospFinalize (l₂.foldl hospUpd (hospInit c)) := by
  rw [hospUpd_foldl, hospUpd_foldl, hospFinalize, hospFinalize]
  have hfm : (l₁.filterMap hospRating).Perm (l₂.filterMap hospRating) :=
    h.filterMap hospRating
  have hsum : (l₁.filterMap hospRating).sum = (l₂.filterMap hospRating).sum :=
    hfm.sum_eq
  have hlen2 : (l₁.filterMap hospRating).length = (l₂.filterMap hospRating).length :=
    hfm.length_eq
  have hie : (l₁.filterMap hospRating).isEmpty = (l₂.filterMap hospRating).isEmpty := by
    cases hc1 : l₁.filterMap hospRating with
    | nil =>
        cases hc2 : l₂.filterMap hospRating with
        | nil => rfl
        | cons x y =>
            rw [hc1, hc2] at hlen2
            exact absurd hlen2 (by simp)
    | cons x y =>
        cases hc2 : l₂.filterMap hospRating with
        | nil =>
            rw [hc1, hc2] at hlen2
            exact absurd hlen2 (by simp)
        | cons x2 y2 => rfl
  have hq : qSum (l₁.filterMap hospRating) = qSum (l₂.filterMap hospRating) := by
    rw [qSum_eq, qSum_eq, hsum]
  simp only [hospInit, List.nil_append, HospRow.mk.injEq]
  exact ⟨trivial, by rw [h.length_eq], by rw [h.countP_eq hospIsAcute],
    by rw [h.countP_eq hospIsCritical], by rw [h.countP_eq hospHasEmergency],
    by rw [h.countP_eq hospIsBirthing], by rw [hie, hq, hlen2]⟩

theorem hpsa_finalize_fold_perm (c : String) (l₁ l₂ : List AttrDict)
    (h : l₁.Perm l₂) :
    hpsaFinalize (l₁.foldl hpsaUpd (hpsaInit c)) =
      hpsaFinalize (l₂.foldl hpsaUpd (hpsaInit c)) := by
  rw [hpsaUpd_foldl, hpsaUpd_foldl, hpsaFinalize, hpsaFinalize]
  have hfm : (l₁.filterMap hpsaScoreOf).Perm (l₂.filterMap hpsaScoreOf) :=
    h.filterMap hpsaScoreOf
  have hsum : (l₁.filterMap hpsaScoreOf).sum = (l₂.filterMap hpsaScoreOf).sum :=
    hfm.sum_eq
  have hlen2 : (l₁.filterMap hpsaScoreOf).length = (l₂.filterMap hpsaScoreOf).length :=
    hfm.length_eq
  have hie : (l₁.filterMap hpsaScoreOf).isEmpty = (l₂.filterMap hpsaScoreOf).isEmpty := by
    cases hc1 : l₁.filterMap hpsaScoreOf with
    | nil =>
        cases hc2 : l₂.filterMap hpsaScoreOf with
        | nil => rfl
        | cons x y =>
            rw [hc1, hc2] at hlen2
            exact absurd hlen2 (by simp)
    | cons x y =>
        cases hc2 : l₂.filterMap hpsaScoreOf with
        | nil =>
            rw [hc1, hc2] at hlen2
            exact absurd hlen2 (by simp)
        | cons x2 y2 => rfl
  have hq : qSum (l₁.filterMap hpsaScoreOf) = qSum (l₂.filterMap hpsaScoreOf) := by
    rw [qSum_eq, qSum_eq, hsum]
  have hmax : qListMax (l₁.filterMap hpsaScoreOf) = qListMax (l₂.filterMap hpsaScoreOf) :=
    qListMax_perm _ _ hfm
  have hpop : (l₁.filterMap hpsaPopOf).sum = (l₂.filterMap hpsaPopOf).sum :=
    (h.filterMap hpsaPopOf).sum_eq
  simp only [hpsaInit, List.nil_append, HpsaRow.mk.injEq]
  exact ⟨trivial, by rw [h.length_eq], by rw [hie, hmax], by rw [hie, hq, hlen2],
    by rw [hpop]⟩

theorem lookupA_mapPair {β γ : Type} (m : List (String × β)) (g : β → γ)
    (k : String) :
    lookupA (m.map (fun e => (e.1, g e.2))) k = (lookupA m k).map g := by
  induction m with
  | nil => rfl
  | cons e t ih =>
      obtain ⟨k', v⟩ := e
      rw [List.map_cons, lookupA_cons, lookupA_cons]
      by_cases hk'k : k' = k
      · rw [if_pos hk'k, if_pos hk'k, Option.map_some']
      · rw [if_neg hk'k, if_neg hk'k, ih]

theorem keysA_mapPair {β γ : Type} (m : List (String × β)) (g : β → γ) :
    keysA (m.map (fun e => (e.1, g e.2))) = keysA m := by
  induction m with
  | nil => rfl
  | cons e t ih => rw [List.map_cons, keysA_cons, keysA_cons, ih]

theorem lookupA_groupFold_nil {ρ β : Type} (keyOf : ρ → Option String)
    (fresh : String → ρ → β) (upd : β → ρ → β) (recs : List ρ) (c : String) :
    lookupA (groupFold keyOf fresh upd [] recs) c =
      (recs.filter (fun r => keyOf r = some c)).foldl (accStep fresh upd c) none := by
  rw [lookupA_groupFold]
  rfl

/-- Generic: when finalization of the per-key fold is invariant under
permutation of the key group, the multiset of finalized rows of a group
fold is invariant under permutation of the records. -/
theorem groupFold_map_finalize_perm {ρ β γ : Type} (keyOf : ρ → Option String)
    (init : String → β) (upd : β → ρ → β) (fin : β → γ)
    (hfin : ∀ c (l₁ l₂ : List ρ), l₁.Perm l₂ →
      fin (l₁.foldl upd (init c)) = fin (l₂.foldl upd (init c)))
    (r₁ r₂ : List ρ) (h : r₁.Perm r₂) :
    ((groupFold keyOf (fun c r => upd (init c) r) upd [] r₁).map
        (fun e => fin e.2)).Perm
      ((groupFold keyOf (fun c r => upd (init c) r) upd [] r₂).map
        (fun e => fin e.2)) := by
  have nd₁ := keysA_groupFold_nodup keyOf (fun c r => upd (init c) r) upd [] r₁
    (by simp [keysA])
  have nd₂ := keysA_groupFold_nodup keyOf (fun c r => upd (init c) r) upd [] r₂
    (by simp [keysA])
  have hperm : ((groupFold keyOf (fun c r => upd (init c) r) upd [] r₁).map
        (fun e => (e.1, fin e.2))).Perm
      ((groupFold keyOf (fun c r => upd (init c) r) upd [] r₂).map
        (fun e => (e.1, fin e.2))) := by
    refine perm_of_lookupA_eq _ _ ?_ ?_ ?_
    · rw [keysA_mapPair _ fin]
      exact nd₁
    · rw [keysA_mapPair _ fin]
      exact nd₂
    · intro k
      rw [lookupA_mapPair _ fin, lookupA_mapPair _ fin,
        lookupA_groupFold_nil, lookupA_groupFold_nil]
      have hfl : (r₁.filter (fun r => keyOf r = some k)).Perm
          (r₂.filter (fun r => keyOf r = some k)) := h.filter _
      cases hc1 : r₁.filter (fun r => keyOf r = some k) with
      | nil =>
          rw [hc1] at hfl
          have hnil2 : r₂.filter (fun r => keyOf r = some k) = [] := hfl.symm.eq_nil
          rw [hnil2]
      | cons a1 t1 =>
          have hne2 : r₂.filter (fun r => keyOf r = some k) ≠ [] := by
            intro hnil
            rw [hc1, hnil] at hfl
            exact absurd hfl.length_eq (by simp)
          cases hc2 : r₂.filter (fun r => keyOf r = some k) with
          | nil => exact absurd hc2 hne2
          | cons a2 t2 =>
              rw [foldl_accStep_cons_none, foldl_accStep_cons_none,
                Option.map_some', Option.map_some']
              have e1 : t1.foldl upd (upd (init k) a1) = (a1 :: t1).foldl upd (init k) :=
                rfl
              have e2 : t2.foldl upd (upd (init k) a2) = (a2 :: t2).foldl upd (init k) :=
                rfl
              have := hfin k _ _ (h.filter (fun r => keyOf r = some k))
              rw [← hc1] at e1
              rw [← hc2] at e2
              rw [e1, e2, this]
  have hmapped := hperm.map Prod.snd
  rw [List.map_map, List.map_map] at hmapped
  have hcomp : (Prod.snd ∘ fun e : String × β => (e.1, fin e.2)) =
      fun e : String × β => fin e.2 := rfl
  rw [hcomp] at hmapped
  exact hmapped

/-- C1, hospital part: the hospital aggregation is order-independent up
to permutation of the output rows. -/
theorem aggregate_hospitals_perm (r₁ r₂ : List Dict) (h : r₁.Perm r₂) :
    (aggregate_hospitals_by_county r₁).Perm (aggregate_hospitals_by_county r₂) := by
  rw [aggregate_hospitals_by_county, aggregate_hospitals_by_county]
  refine ((List.perm_insertionSort _ _).trans ?_).trans
    (List.perm_insertionSort _ _).symm
  exact groupFold_map_finalize_perm hospKeyOf hospInit hospUpd hospFinalize
    hosp_finalize_fold_perm r₁ r₂ h

/-- C1, HPSA part: the HPSA aggregation is order-independent up to
permutation of the output rows. -/
theorem aggregate_hpsa_perm (f₁ f₂ : List AttrDict) (h : f₁.Perm f₂) :
    (aggregate_hpsa_by_county f₁).Perm (aggregate_hpsa_by_county f₂) := by
  rw [aggregate_hpsa_by_county, aggregate_hpsa_by_county]
  refine ((List.perm_insertionSort _ _).trans ?_).trans
    (List.perm_insertionSort _ _).symm
  exact groupFold_map_finalize_perm hpsaKeyOf hpsaInit hpsaUpd hpsaFinalize
    hpsa_finalize_fold_perm f₁ f₂ h

def pivotRecMid (rec : Dict) : String := dgetD rec "measureid" ""

def pivotPairKey (rec : Dict) : String × String :=
  (cleanCountyName (dgetD rec "locationname" ""), pivotRecMid rec)

theorem pivotUpd_eq (vc : String) (row rec : Dict) :
    pivotUpd vc row rec =
      dset row (pivotRecMid rec) (convertValue (dgetD rec vc "")) := rfl

theorem pivotFold_no_mid (vc : String) (l : List Dict) (d : Dict) (k : String)
    (h : ∀ r ∈ l, pivotRecMid r ≠ k) :
    dget (l.foldl (pivotUpd vc) d) k = dget d k := by
  induction l generalizing d with
  | nil => rfl
  | cons r t ih =>
      rw [List.foldl_cons, ih _ (fun r' hr' => h r' (List.mem_cons_of_mem _ hr')),
        pivotUpd_eq, dget_dset, if_neg (h r (List.mem_cons_self _ _))]

theorem pivotFold_lookup (vc : String) (l : List Dict) (d : Dict) (k : String)
    (hnd : (l.map pivotRecMid).Nodup) :
    dget (l.foldl (pivotUpd vc) d) k =
      match l.find? (fun r => pivotRecMid r = k) with
      | some r => some (convertValue (dgetD r vc ""))
      | none => dget d k := by
  induction l generalizing d with
  | nil => rfl
  | cons r t ih =>
      rw [List.map_cons, List.nodup_cons] at hnd
      rw [List.foldl_cons]
      by_cases hk : pivotRecMid r = k
      · have hnot : ∀ r' ∈ t, pivotRecMid r' ≠ k := by
          intro r' hr' he
          exact hnd.1 (by
            rw [← he] at hk
            rw [hk]
            exact List.mem_map.2 ⟨r', hr', rfl⟩)
        rw [pivotFold_no_mid vc t _ k hnot, List.find?_cons_of_pos _ (by simp [hk]),
          pivotUpd_eq, dget_dset, if_pos hk]
      · rw [ih _ hnd.2, List.find?_cons_of_neg _ (by simp [hk])]
        cases hf : t.find? (fun r => pivotRecMid r = k) with
        | some r' => rfl
        | none => rw [pivotUpd_eq, dget_dset, if_neg hk]

theorem pivot_group_mids_nodup (recs : List Dict) (c : String)
    (hnd : (recs.map pivotPairKey).Nodup) :
    ((recs.filter (fun r => pivotKeyOf r = some c)).map pivotRecMid).Nodup := by
  have hsub : ((recs.filter (fun r => pivotKeyOf r = some c)).map pivotPairKey).Nodup :=
    ((List.filter_sublist recs).map pivotPairKey).nodup hnd
  have hmap : (recs.filter (fun r => pivotKeyOf r = some c)).map pivotRecMid =
      ((recs.filter (fun r => pivotKeyOf r = some c)).map pivotPairKey).map
        Prod.snd := by
    rw [List.map_map]
    rfl
  rw [hmap]
  refine List.Nodup.map_on ?_ hsub
  intro x hx y hy hxy
  obtain ⟨rx, hrx, hex⟩ := List.mem_map.1 hx
  obtain ⟨ry, hry, hey⟩ := List.mem_map.1 hy
  have hcx : x.1 = c := by
    rw [← hex]
    have := (List.mem_filter.1 hrx).2
    simp only [pivotKeyOf] at this
    exact Option.some.inj (by simpa using this)
  have hcy : y.1 = c := by
    rw [← hey]
    have := (List.mem_filter.1 hry).2
    simp only [pivotKeyOf] at this
    exact Option.some.inj (by simpa using this)
  obtain ⟨x1, x2⟩ := x
  obtain ⟨y1, y2⟩ := y
  simp only at hcx hcy hxy
  rw [hcx, hcy, hxy]

theorem find?_mid_perm (l₁ l₂ : List Dict) (h : l₁.Perm l₂)
    (hnd : (l₂.map pivotRecMid).Nodup) (k : String) :
    l₁.find? (fun r => pivotRecMid r = k) = l₂.find? (fun r => pivotRecMid r = k) := by
  cases hf1 : l₁.find? (fun r => pivotRecMid r = k) with
  | none =>
      cases hf2 : l₂.find? (fun r => pivotRecMid r = k) with
      | none => rfl
      | some r =>
          have hr : pivotRecMid r = k := by simpa using List.find?_some hf2
          have hmem : r ∈ l₁ := h.mem_iff.2 (List.mem_of_find?_eq_some hf2)
          have := List.find?_eq_none.1 hf1 r hmem
          simp [hr] at this
  | some r =>
      have hr : pivotRecMid r = k := by simpa using List.find?_some hf1
      have hmem : r ∈ l₂ := h.mem_iff.1 (List.mem_of_find?_eq_some hf1)
      cases hf2 : l₂.find? (fun r => pivotRecMid r = k) with
      | none =>
          have := List.find?_eq_none.1 hf2 r hmem
          simp [hr] at this
      | some r' =>
          have hr' : pivotRecMid r' = k := by simpa using List.find?_some hf2
          have hmem' : r' ∈ l₂ := List.mem_of_find?_eq_some hf2
          have heq : r = r' :=
            List.inj_on_of_nodup_map hnd hmem hmem' (by rw [hr, hr'])
          rw [heq]

def pivotMap (records : List Dict) (value_col : String) : List (String × Dict) :=
  groupFold pivotKeyOf (pivotFresh value_col) (pivotUpd value_col) [] records

def pivotCell (records : List Dict) (value_col c k : String) : Option String :=
  (lookupA (pivotMap records value_col) c).bind (fun row => dget row k)

/-- C1 (amended): permuting the raw records leaves the hospital and the
HPSA county aggregations unchanged up to permutation of the output rows;
the PLACES pivot is likewise order-independent, with its per-county rows
compared as mappings (same county set, same cell lookups), provided no
two records share the same cleaned county and measureid, since a
duplicate cell is resolved by last-write-wins. -/
theorem C1_amended_order_independence
    (hrecs₁ hrecs₂ : List Dict) (hH : hrecs₁.Perm hrecs₂)
    (feats₁ feats₂ : List AttrDict) (hF : feats₁.Perm feats₂)
    (precs₁ precs₂ : List Dict) (hP : precs₁.Perm precs₂) (vc : String)
    (hnd : (precs₁.map pivotPairKey).Nodup) :
    (aggregate_hospitals_by_county hrecs₁).Perm
      (aggregate_hospitals_by_county hrecs₂) ∧
    (aggregate_hpsa_by_county feats₁).Perm (aggregate_hpsa_by_county feats₂) ∧
    (∀ vcol recs, pivot_rows recs vcol =
      List.insertionSort pivotRowLE ((pivotMap recs vcol).map Prod.snd)) ∧
    (∀ c, c ∈ keysA (pivotMap precs₁ vc) ↔ c ∈ keysA (pivotMap precs₂ vc)) ∧
    (∀ c k, pivotCell precs₁ vc c k = pivotCell precs₂ vc c k) := by
  refine ⟨aggregate_hospitals_perm _ _ hH, aggregate_hpsa_perm _ _ hF,
    fun vcol recs => rfl, ?_, ?_⟩
  · intro c
    rw [pivotMap, pivotMap, mem_keysA_groupFold, mem_keysA_groupFold]
    constructor
    · rintro (h | ⟨r, hr, hk⟩)
      · simp [keysA] at h
      · exact Or.inr ⟨r, hP.mem_iff.1 hr, hk⟩
    · rintro (h | ⟨r, hr, hk⟩)
      · simp [keysA] at h
      · exact Or.inr ⟨r, hP.mem_iff.2 hr, hk⟩
  · intro c k
    rw [pivotCell, pivotCell, pivotMap, pivotMap, lookupA_groupFold_nil,
      lookupA_groupFold_nil]
    have hfl : (precs₁.filter (fun r => pivotKeyOf r = some c)).Perm
        (precs₂.filter (fun r => pivotKeyOf r = some c)) := hP.filter _
    have hnd₂ : (precs₂.map pivotPairKey).Nodup :=
      (hP.map pivotPairKey).nodup_iff.1 hnd
    have hm₁ := pivot_group_mids_nodup precs₁ c hnd
    have hm₂ := pivot_group_mids_nodup precs₂ c hnd₂
    cases hc1 : precs₁.filter (fun r => pivotKeyOf r = some c) with
    | nil =>
        rw [hc1] at hfl
        have hnil2 : precs₂.filter (fun r => pivotKeyOf r = some c) = [] :=
          hfl.symm.eq_nil
        rw [hnil2]
    | cons a1 t1 =>
        have hne2 : precs₂.filter (fun r => pivotKeyOf r = some c) ≠ [] := by
          intro hnil
          rw [hc1, hnil] at hfl
          exact absurd hfl.length_eq (by simp)
        cases hc2 : precs₂.filter (fun r => pivotKeyOf r = some c) with
        | nil => exact absurd hc2 hne2
        | cons a2 t2 =>
            rw [foldl_accStep_cons_none, foldl_accStep_cons_none]
            have e1 : t1.foldl (pivotUpd vc) (pivotFresh vc c a1) =
                (precs₁.filter (fun r => pivotKeyOf r = some c)).foldl
                  (pivotUpd vc) (pivotInit c) := by
              rw [hc1, List.foldl_cons]
              rfl
            have e2 : t2.foldl (pivotUpd vc) (pivotFresh vc c a2) =
                (precs₂.filter (fun r => pivotKeyOf r = some c)).foldl
                  (pivotUpd vc) (pivotInit c) := by
              rw [hc2, List.foldl_cons]
              rfl
            rw [e1, e2]
            have hl1 := pivotFold_lookup vc
              (precs₁.filter (fun r => pivotKeyOf r = some c)) (pivotInit c) k hm₁
            have hl2 := pivotFold_lookup vc
              (precs₂.filter (fun r => pivotKeyOf r = some c)) (pivotInit c) k hm₂
            have hfind := find?_mid_perm
              (precs₁.filter (fun r => pivotKeyOf r = some c))
              (precs₂.filter (fun r => pivotKeyOf r = some c)) hfl hm₂ k
            show dget ((precs₁.filter (fun r => pivotKeyOf r = some c)).foldl
                (pivotUpd vc) (pivotInit c)) k =
              dget ((precs₂.filter (fun r => pivotKeyOf r = some c)).foldl
                (pivotUpd vc) (pivotInit c)) k
            rw [hl1, hl2, hfind]

def c1RecA : Dict :=
  [("locationname", "Wayne"), ("measureid", "M"), ("data_value", "va")]

def c1RecB : Dict :=
  [("locationname", "Wayne"), ("measureid", "M"), ("data_value", "vb")]

/-- C1 counterexample: two records for the same county and measure with
different non-numeric values; swapping them changes the pivoted row,
because the later record overwrites the stored cell (last-write-wins),
so the pivot is not order-independent on such inputs. -/
theorem C1_counterexample :
    ([c1RecA, c1RecB]).Perm [c1RecB, c1RecA] ∧
    pivot_rows [c1RecA, c1RecB] "data_value" =
      [[("locationname", "Wayne"), ("M", "vb")]] ∧
    pivot_rows [c1RecB, c1RecA] "data_value" =
      [[("locationname", "Wayne"), ("M", "va")]] ∧
    pivotCell [c1RecA, c1RecB] "data_value" "Wayne" "M" ≠
      pivotCell [c1RecB, c1RecA] "data_value" "Wayne" "M" := by
  refine ⟨List.Perm.swap c1RecB c1RecA [], by decide, by decide, by decide⟩

theorem C1_witness :
    ([c10Rec].Perm [c10Rec] ∧ [c2Feature].Perm [c2Feature] ∧
      [c1RecA].Perm [c1RecA] ∧ (([c1RecA] : List Dict).map pivotPairKey).Nodup) ∧
    (aggregate_hospitals_by_county [c10Rec]).Perm
      (aggregate_hospitals_by_county [c10Rec]) ∧
    (∀ c k, pivotCell [c1RecA] "data_value" c k =
      pivotCell [c1RecA] "data_value" c k) :=
  ⟨⟨List.Perm.refl _, List.Perm.refl _, List.Perm.refl _, by decide⟩,
    (C1_amended_order_independence [c10Rec] [c10Rec] (List.Perm.refl _)
      [c2Feature] [c2Feature] (List.Perm.refl _)
      [c1RecA] [c1RecA] (List.Perm.refl _) "data_value" (by decide)).1,
    (C1_amended_order_independence [c10Rec] [c10Rec] (List.Perm.refl _)
      [c2Feature] [c2Feature] (List.Perm.refl _)
      [c1RecA] [c1RecA] (List.Perm.refl _) "data_value" (by decide)).2.2.2.2⟩
